import Mathlib

/-!
# Record-boundary scanning of `vroom` (`src/utils.h`)

A shallow embedding of the helpers of `namespace vroom` in `src/utils.h` and the
properties of them that the specification states.

## Memory model

A source buffer (`const T& source`, read through `source.data()` and
`source.size()`) is the list of its bytes; a byte is a natural number below 256 and
only equality of bytes is ever tested by the code.  `strcspn` and `strncmp` are C
string functions: they are bounded by the next NUL byte and not by `source.size()`.
Reading at an index at or beyond the length of the list yields `0`, so a function that
takes the buffer alone stands for the code on a buffer that is followed in memory by a
NUL byte, as in a `std::string`.  Where a property depends on what follows the buffer,
the function takes the memory and the size apart (`find_next_non_quoted_newline_in`,
and the loops, which take `end` as an argument of its own).

`size_t` values are natural numbers.  The subtractions that can wrap are
`source.size() - 1` on an empty buffer, embedded by `size_minus_one`, and the cast of
`end - begin` to `size_t`, embedded by `ptrdiff_as_size`.
-/

namespace vroom

/-- The byte `buf[i]` of the memory `buf`, which ends with a NUL byte. -/
def byteAt (buf : List Nat) (i : Nat) : Nat := buf.getD i 0

/-- The value of `source.size() - 1` in `size_t` arithmetic (64 bit). -/
def size_minus_one (size : Nat) : Nat := if size = 0 then 2 ^ 64 - 1 else size - 1

/-- The characters of a C string stored in a `char` array: those before the first NUL. -/
def c_str (chars : List Nat) : List Nat := chars.takeWhile (fun c => decide (c ≠ 0))

/-- Length of the initial segment of the C string `s` that holds no byte of `reject`
(the scan also stops at the NUL that ends `s`). -/
def strcspn_str (reject : List Nat) : List Nat → Nat
  | [] => 0
  | c :: cs => if c = 0 ∨ c ∈ reject then 0 else strcspn_str reject cs + 1

/-- The call `strcspn(buf + pos, reject)`. -/
def strcspn (buf : List Nat) (pos : Nat) (reject : List Nat) : Nat :=
  strcspn_str reject (buf.drop pos)

/-- The call `strncmp(a, b, n)` on two C strings: the difference of the first pair of
bytes that differ among the first `n`, and `0` when there is none before the strings
end. -/
def strncmp : List Nat → List Nat → Nat → Int
  | _, _, 0 => 0
  | a, b, n + 1 =>
    if a.headD 0 ≠ b.headD 0 then (a.headD 0 : Int) - (b.headD 0 : Int)
    else if a.headD 0 = 0 then 0
    else strncmp a.tail b.tail n

/-- Source: `enum newline_type`. -/
inductive newline_type where
  | CR
  | CRLF
  | LF
  | NA
  deriving DecidableEq, Repr

open newline_type

/-- Source: `is_crlf(buf, pos, end)`. -/
def is_crlf (buf : List Nat) (pos e : Nat) : Bool :=
  decide (byteAt buf pos = 13 ∧ pos + 1 < e ∧ byteAt buf (pos + 1) = 10)

/-- The loop `while (begin < end && (*begin == ' ' || *begin == '\t')) ++begin;` of
`is_blank_or_comment_line`; it runs at most `end - begin` times. -/
def skip_spaces_tabs (buf : List Nat) (e : Nat) : Nat → Nat → Nat
  | 0, b => b
  | fuel + 1, b =>
    if b < e ∧ (byteAt buf b = 32 ∨ byteAt buf b = 9) then skip_spaces_tabs buf e fuel (b + 1)
    else b

/-- Source: `is_blank_or_comment_line(begin, end, comment, skip_empty_rows)`, the two
pointers given as indices into `buf`. -/
def is_blank_or_comment_line (buf : List Nat) (b e : Nat) (comment : List Nat)
    (skip_empty_rows : Bool) : Bool :=
  if skip_empty_rows = false ∧ comment = [] then false
  else if skip_empty_rows = true ∧ (byteAt buf b = 10 ∨ byteAt buf b = 13) then true
  else
    let b1 := skip_spaces_tabs buf e (e - b) b
    if (skip_empty_rows = true ∧ (byteAt buf b1 = 10 ∨ byteAt buf b1 = 13)) ∨
        (comment ≠ [] ∧ strncmp (buf.drop b1) comment comment.length = 0) then true
    else false

/-- The `while (pos < end)` loop of `find_next_non_quoted_newline` with the return
statements that follow it.  Every iteration that does not return advances `pos`, so
`end - pos` iterations suffice; the first argument counts them down. -/
def find_next_non_quoted_newline_loop (buf : List Nat) (e : Nat) (quote : Nat) :
    Nat → Nat → Bool → Nat × newline_type
  | 0, pos, _ => if pos > e then (e, NA) else (pos, NA)
  | fuel + 1, pos, in_quote =>
    if pos < e then
      let pos1 := pos + strcspn buf pos (c_str [13, 10, quote, 0])
      let c := byteAt buf pos1
      if c = 10 ∨ c = 13 then
        if in_quote = true then
          find_next_non_quoted_newline_loop buf e quote fuel (pos1 + 1) in_quote
        else if c = 10 then (pos1, LF)
        else if is_crlf buf pos1 e = true then (pos1 + 1, CRLF)
        else (pos1, CR)
      else
        find_next_non_quoted_newline_loop buf e quote fuel (pos1 + 1)
          (if c = quote then !in_quote else in_quote)
    else if pos > e then (e, NA) else (pos, NA)

/-- Source: `find_next_non_quoted_newline(source, start, quote)` on a buffer that is
followed in memory by a NUL byte. -/
def find_next_non_quoted_newline (buf : List Nat) (start : Nat) (quote : Nat) :
    Nat × newline_type :=
  if start > size_minus_one buf.length then (size_minus_one buf.length, NA)
  else
    find_next_non_quoted_newline_loop buf (size_minus_one buf.length) quote
      (size_minus_one buf.length - start) start false

/-- Source: `find_next_non_quoted_newline(source, start, quote)` for a source of `size`
bytes that lies at the start of the memory `mem`: `strcspn` is not bounded by
`source.size()` and goes on into the bytes that follow the buffer in memory. -/
def find_next_non_quoted_newline_in (mem : List Nat) (size start quote : Nat) :
    Nat × newline_type :=
  if start > size_minus_one size then (size_minus_one size, NA)
  else
    find_next_non_quoted_newline_loop mem (size_minus_one size) quote
      (size_minus_one size - start) start false

/-- Source: `find_next_newline(source, start, comment, skip_empty_rows, embedded_nl,
quote)`.  The `while` loop of the fast path ends with an unconditional `break` after
its first `strcspn`, so the statements after the `break` never run, and `begin` is
never a null pointer. -/
def find_next_newline (buf : List Nat) (start : Nat) (_comment : List Nat)
    (_skip_empty_rows : Bool) (embedded_nl : Bool) (quote : Nat) : Nat × newline_type :=
  if start ≥ buf.length then (size_minus_one buf.length, NA)
  else if embedded_nl = true then find_next_non_quoted_newline buf start quote
  else
    let pos := start + strcspn buf start (c_str [13, 10, 0])
    if byteAt buf pos = 10 then (pos, LF)
    else if byteAt buf pos = 13 then
      if is_crlf buf pos buf.length = true then (pos, CRLF) else (pos, CR)
    else (pos, NA)

/-- Source: `skip_bom(source)`. -/
def skip_bom (buf : List Nat) : Nat :=
  if byteAt buf 0 = 0x00 then
    if buf.length ≥ 4 ∧ byteAt buf 1 = 0x00 ∧ byteAt buf 2 = 0xFE ∧ byteAt buf 3 = 0xFF then 4
    else 0
  else if byteAt buf 0 = 0xEF then
    if buf.length ≥ 3 ∧ byteAt buf 1 = 0xBB ∧ byteAt buf 2 = 0xBF then 3 else 0
  else if byteAt buf 0 = 0xFE then
    if buf.length ≥ 2 ∧ byteAt buf 1 = 0xFF then 2 else 0
  else if byteAt buf 0 = 0xFF then
    if buf.length ≥ 2 ∧ byteAt buf 1 = 0xFE then
      if buf.length ≥ 4 ∧ byteAt buf 2 = 0x00 ∧ byteAt buf 3 = 0x00 then 4 else 2
    else 0
  else 0

/-- The `while` loop of `find_first_line`.  `comment` is the `std::string` built from
the `const char*` argument.  An iteration lowers `skip` or, when `skip` is zero, moves
`begin` forward below `size - 1`; the first argument counts the iterations down.
`++begin` is taken without wrap-around, which differs from `size_t` only on the empty
buffer, where `size - 1` is the largest `size_t`. -/
def find_first_line_loop (buf : List Nat) (comment : List Nat) (skip_empty_rows : Bool)
    (embedded_nl : Bool) (quote : Nat) : Nat → Nat → Nat → Nat
  | 0, b, _ => b
  | fuel + 1, b, skip =>
    if (b < size_minus_one buf.length ∧
        is_blank_or_comment_line buf b buf.length comment skip_empty_rows = true) ∨
        skip > 0 then
      find_first_line_loop buf comment skip_empty_rows embedded_nl quote fuel
        ((find_next_newline buf b [] false embedded_nl quote).1 + 1)
        (if skip > 0 then skip - 1 else skip)
    else b

/-- Source: `find_first_line(source, skip, comment, skip_empty_rows, embedded_nl,
quote)`; `comment` holds the bytes the `const char*` argument points to. -/
def find_first_line (buf : List Nat) (skip : Nat) (comment : List Nat)
    (skip_empty_rows : Bool) (embedded_nl : Bool) (quote : Nat) : Nat :=
  find_first_line_loop buf (c_str comment) skip_empty_rows embedded_nl quote
    (skip + (size_minus_one buf.length - skip_bom buf)) (skip_bom buf) skip

/-! ## Notions the properties are stated with -/

/-- The bytes of `buf` at the indices `a ≤ i < b`. -/
def slice (buf : List Nat) (a b : Nat) : List Nat := (buf.drop a).take (b - a)

/-- Whether an odd number of `quote` bytes lies at the indices `a ≤ i < b` of `buf`. -/
def odd_quotes (buf : List Nat) (quote : Nat) (a b : Nat) : Bool :=
  decide ((slice buf a b).count quote % 2 = 1)

/-- The loop of `find_next_non_quoted_newline` started at `pos` with the flag `in_quote`,
given exactly the `end - pos` iterations it can need. -/
def scan_from (buf : List Nat) (e quote pos : Nat) (in_quote : Bool) : Nat × newline_type :=
  find_next_non_quoted_newline_loop buf e quote (e - pos) pos in_quote

/-- A terminator byte (CR or LF) at index `p ≥ start` of the buffer that is preceded by
an even number of `quote` bytes in `[start, p)`. -/
def unquoted_terminator_at (buf : List Nat) (quote start p : Nat) : Prop :=
  start ≤ p ∧ p < buf.length ∧ (byteAt buf p = 10 ∨ byteAt buf p = 13) ∧
    odd_quotes buf quote start p = false

instance (buf : List Nat) (quote start p : Nat) :
    Decidable (unquoted_terminator_at buf quote start p) := by
  unfold unquoted_terminator_at
  infer_instance

/-- The index `p` is the smallest index `≥ start` that holds CR or LF and is preceded by
an even number of `quote` bytes in `[start, p)`. -/
def first_unquoted_terminator (buf : List Nat) (quote start p : Nat) : Prop :=
  unquoted_terminator_at buf quote start p ∧
    ∀ i, i < p → ¬ unquoted_terminator_at buf quote start i

instance (buf : List Nat) (quote start p : Nat) :
    Decidable (first_unquoted_terminator buf quote start p) := by
  unfold first_unquoted_terminator
  infer_instance

/-- The index `p` is the smallest index `≥ start` of the buffer that holds CR or LF. -/
def first_terminator (buf : List Nat) (start p : Nat) : Prop :=
  start ≤ p ∧ p < buf.length ∧ (byteAt buf p = 10 ∨ byteAt buf p = 13) ∧
    ∀ i, start ≤ i → i < p → ¬ (byteAt buf i = 10 ∨ byteAt buf i = 13)

instance (buf : List Nat) (start p : Nat) : Decidable (first_terminator buf start p) := by
  unfold first_terminator
  infer_instance

/-- The bytes of a sequence of lines, each followed by LF. -/
def lf_lines : List (List Nat) → List Nat
  | [] => []
  | l :: ls => l ++ 10 :: lf_lines ls

/-- A line is blank (only spaces and tabs) or holds the comment prefix right after its
leading spaces and tabs. -/
def blank_or_comment (comment line : List Nat) : Prop :=
  line.dropWhile (fun c => decide (c = 32 ∨ c = 9)) = [] ∨
    comment <+: line.dropWhile (fun c => decide (c = 32 ∨ c = 9))

instance (comment line : List Nat) : Decidable (blank_or_comment comment line) := by
  unfold blank_or_comment
  infer_instance

/-- The value of `static_cast<size_t>(end - begin)` for two pointers into the buffer
given as indices (64 bit). -/
def ptrdiff_as_size (b e : Nat) : Nat := if b ≤ e then e - b else 2 ^ 64 - (b - e)

/-- Source: `is_comment(begin, end, comment)`, the two pointers given as indices into
`buf`. -/
def is_comment (buf : List Nat) (b e : Nat) (comment : List Nat) : Bool :=
  if comment = [] ∨ comment.length ≥ ptrdiff_as_size b e then false
  else decide (strncmp comment (buf.drop b) comment.length = 0)

/-- Source: `matches(start, end, needle)` (`matches` is a reserved word here), the two pointers given as indices into
`buf`. -/
def matches_span (buf : List Nat) (start e : Nat) (needle : List Nat) : Bool :=
  if e ≤ start ∨ needle = [] ∨ ptrdiff_as_size start e < needle.length then false
  else decide (strncmp (buf.drop start) needle needle.length = 0)

/-- Source: `is_space(c)`, the pointer given as an index into `buf`. -/
def is_space (buf : List Nat) (c : Nat) : Bool :=
  decide (byteAt buf c = 32 ∨ byteAt buf c = 9 ∨ byteAt buf c = 0 ∨ byteAt buf c = 13)

/-- The loop `while (begin != end && is_space(begin)) ++begin;` of `trim_whitespace`;
for `begin ≤ end` it runs at most `end - begin` times, which the first argument counts
down. -/
def trim_begin (buf : List Nat) (e : Nat) : Nat → Nat → Nat
  | 0, b => b
  | fuel + 1, b =>
    if b ≠ e ∧ is_space buf b = true then trim_begin buf e fuel (b + 1) else b

/-- The loop `while (end != begin && is_space(end - 1)) --end;` of `trim_whitespace`;
for `begin ≤ end` it runs at most `end - begin` times, which the first argument counts
down. -/
def trim_end (buf : List Nat) (b : Nat) : Nat → Nat → Nat
  | 0, e => e
  | fuel + 1, e =>
    if e ≠ b ∧ is_space buf (e - 1) = true then trim_end buf b fuel (e - 1) else e

/-- Source: `trim_whitespace(begin, end)` for `begin ≤ end`; the two references are
given as indices into `buf` and the narrowed pair is returned. -/
def trim_whitespace (buf : List Nat) (b e : Nat) : Nat × Nat :=
  (trim_begin buf e (e - b) b,
    trim_end buf (trim_begin buf e (e - b) b) (e - trim_begin buf e (e - b) b) e)

/-- Source: `has_expected_line_ending(nl, value)`. -/
def has_expected_line_ending (nl : newline_type) (value : Nat) : Bool :=
  if nl = CR ∧ value = 13 then true else decide (value = 10)

/-- The index at which the terminator reported by a scanner begins: the returned offset
for the kinds `LF` and `CR`, the returned offset minus one for the kind `CRLF`. -/
def terminator_start (r : Nat × newline_type) : Nat := if r.2 = CRLF then r.1 - 1 else r.1

/-! ## The C string functions -/

theorem size_minus_one_pos (n : Nat) (h : 0 < n) : size_minus_one n = n - 1 := by
  simp [size_minus_one, Nat.pos_iff_ne_zero.mp h]

theorem byteAt_drop (buf : List Nat) (pos i : Nat) :
    (buf.drop pos).getD i 0 = byteAt buf (pos + i) := by
  simp [byteAt, List.getD_eq_getElem?_getD, List.getElem?_drop]

theorem byteAt_of_length_le (buf : List Nat) (i : Nat) (h : buf.length ≤ i) :
    byteAt buf i = 0 := by
  simp [byteAt, List.getD_eq_getElem?_getD, List.getElem?_eq_none h]

theorem strcspn_str_le (reject l : List Nat) : strcspn_str reject l ≤ l.length := by
  induction l with
  | nil => simp [strcspn_str]
  | cons c cs ih =>
    simp only [strcspn_str, List.length_cons]
    split_ifs <;> omega

theorem strcspn_str_stop (reject l : List Nat) :
    l.getD (strcspn_str reject l) 0 = 0 ∨ l.getD (strcspn_str reject l) 0 ∈ reject := by
  induction l with
  | nil => simp [strcspn_str]
  | cons c cs ih =>
    simp only [strcspn_str]
    split_ifs with h
    · simpa using h
    · simpa using ih

theorem strcspn_str_before (reject l : List Nat) (i : Nat) (h : i < strcspn_str reject l) :
    l.getD i 0 ≠ 0 ∧ l.getD i 0 ∉ reject := by
  induction l generalizing i with
  | nil => simp [strcspn_str] at h
  | cons c cs ih =>
    simp only [strcspn_str] at h
    split_ifs at h with hc
    · omega
    · cases i with
      | zero => simpa [not_or] using hc
      | succ j => simpa using ih j (by omega)

theorem strcspn_stop (buf : List Nat) (pos : Nat) (reject : List Nat) :
    byteAt buf (pos + strcspn buf pos reject) = 0 ∨
      byteAt buf (pos + strcspn buf pos reject) ∈ reject := by
  have h := strcspn_str_stop reject (buf.drop pos)
  rw [byteAt_drop] at h
  exact h

theorem strcspn_before (buf : List Nat) (pos : Nat) (reject : List Nat) (i : Nat)
    (h1 : pos ≤ i) (h2 : i < pos + strcspn buf pos reject) :
    byteAt buf i ≠ 0 ∧ byteAt buf i ∉ reject := by
  have h := strcspn_str_before reject (buf.drop pos) (i - pos) (by unfold strcspn at h2; omega)
  rw [byteAt_drop] at h
  rwa [show pos + (i - pos) = i by omega] at h

theorem strcspn_le (buf : List Nat) (pos : Nat) (reject : List Nat) (h : pos ≤ buf.length) :
    pos + strcspn buf pos reject ≤ buf.length := by
  have := strcspn_str_le reject (buf.drop pos)
  simp only [List.length_drop] at this
  unfold strcspn
  omega

/-- The scan `strcspn(buf + pos, reject)` ends at the first index `p ≥ pos` that holds a
NUL or a byte of `reject`. -/
theorem strcspn_eq (buf : List Nat) (pos p : Nat) (reject : List Nat) (h1 : pos ≤ p)
    (h2 : ∀ i, pos ≤ i → i < p → byteAt buf i ≠ 0 ∧ byteAt buf i ∉ reject)
    (h3 : byteAt buf p = 0 ∨ byteAt buf p ∈ reject) :
    pos + strcspn buf pos reject = p := by
  rcases Nat.lt_trichotomy (pos + strcspn buf pos reject) p with h | h | h
  · have := h2 _ (Nat.le_add_right _ _) h
    have := strcspn_stop buf pos reject
    tauto
  · exact h
  · have := strcspn_before buf pos reject p h1 h
    tauto

theorem mem_query4 (quote c : Nat) :
    c ∈ c_str [13, 10, quote, 0] ↔ c = 13 ∨ c = 10 ∨ (c = quote ∧ quote ≠ 0) := by
  by_cases hq : quote = 0
  · subst hq
    simp [c_str, List.takeWhile]
  · simp [c_str, List.takeWhile, hq]

theorem mem_query3 (c : Nat) : c ∈ c_str [13, 10, 0] ↔ c = 13 ∨ c = 10 := by
  simp [c_str, List.takeWhile]

/-! ## Slices of the buffer and the parity of the quote bytes in them -/

theorem slice_self (buf : List Nat) (a : Nat) : slice buf a a = [] := by
  simp [slice]

theorem slice_split (buf : List Nat) (a m b : Nat) (h1 : a ≤ m) (h2 : m ≤ b) :
    slice buf a b = slice buf a m ++ slice buf m b := by
  unfold slice
  have hb : b - a = (m - a) + (b - m) := by omega
  rw [hb, List.take_add, List.drop_drop]
  congr 3
  omega

theorem slice_one (buf : List Nat) (a : Nat) (h : a < buf.length) :
    slice buf a (a + 1) = [byteAt buf a] := by
  unfold slice byteAt
  rw [show a + 1 - a = 1 by omega]
  rw [List.drop_eq_getElem_cons h]
  simp only [List.take_succ_cons, List.take_zero, List.getD_eq_getElem?_getD,
    List.getElem?_eq_getElem h, Option.getD_some]

theorem slice_eq_nil_of_length_le (buf : List Nat) (a b : Nat) (h : buf.length ≤ a) :
    slice buf a b = [] := by
  simp [slice, List.drop_eq_nil_of_le h]

theorem mem_slice (buf : List Nat) (a b x : Nat) (h : x ∈ slice buf a b) :
    ∃ i, a ≤ i ∧ i < b ∧ i < buf.length ∧ byteAt buf i = x := by
  unfold slice at h
  obtain ⟨n, hn, hx⟩ := List.getElem_of_mem h
  simp only [List.length_take, List.length_drop] at hn
  refine ⟨a + n, by omega, by omega, by omega, ?_⟩
  rw [← hx]
  simp [byteAt, List.getD_eq_getElem?_getD, List.getElem_take, List.getElem_drop]
  rw [List.getElem?_eq_getElem (by omega)]
  rfl

theorem count_slice_of_absent (buf : List Nat) (quote a b : Nat)
    (h : ∀ i, a ≤ i → i < b → i < buf.length → byteAt buf i ≠ quote) :
    (slice buf a b).count quote = 0 := by
  rw [List.count_eq_zero]
  intro hm
  obtain ⟨i, h1, h2, h3, h4⟩ := mem_slice buf a b quote hm
  exact h i h1 h2 h3 h4

theorem odd_quotes_self (buf : List Nat) (quote a : Nat) : odd_quotes buf quote a a = false := by
  simp [odd_quotes, slice_self]

theorem odd_quotes_split (buf : List Nat) (quote a m b : Nat) (h1 : a ≤ m) (h2 : m ≤ b) :
    odd_quotes buf quote a b = xor (odd_quotes buf quote a m) (odd_quotes buf quote m b) := by
  unfold odd_quotes
  rw [slice_split buf a m b h1 h2, List.count_append]
  rcases Nat.mod_two_eq_zero_or_one ((slice buf a m).count quote) with h | h <;>
  rcases Nat.mod_two_eq_zero_or_one ((slice buf m b).count quote) with h' | h' <;>
  simp [Nat.add_mod, h, h']

theorem odd_quotes_of_absent (buf : List Nat) (quote a b : Nat)
    (h : ∀ i, a ≤ i → i < b → i < buf.length → byteAt buf i ≠ quote) :
    odd_quotes buf quote a b = false := by
  simp [odd_quotes, count_slice_of_absent buf quote a b h]

theorem odd_quotes_one (buf : List Nat) (quote a : Nat) (hq : quote ≠ 0) :
    odd_quotes buf quote a (a + 1) = decide (byteAt buf a = quote) := by
  by_cases h : a < buf.length
  · unfold odd_quotes
    rw [slice_one buf a h]
    by_cases hc : byteAt buf a = quote <;> simp [hc, List.count_cons]
  · have h0 := byteAt_of_length_le buf a (by omega)
    rw [odd_quotes, slice_eq_nil_of_length_le buf a _ (by omega), h0]
    simp [Ne.symm hq]

/-! ## The quote-aware scanner -/

/-- The loop of `find_next_non_quoted_newline` gives the same result for every number
of allowed iterations that is at least `end - pos`. -/
theorem find_next_non_quoted_newline_loop_fuel (buf : List Nat) (e quote : Nat)
    (f1 f2 pos : Nat) (in_quote : Bool) (h1 : e - pos ≤ f1) (h2 : e - pos ≤ f2) :
    find_next_non_quoted_newline_loop buf e quote f1 pos in_quote =
      find_next_non_quoted_newline_loop buf e quote f2 pos in_quote := by
  induction f1 generalizing f2 pos in_quote with
  | zero =>
    have hp : ¬ pos < e := by omega
    cases f2 with
    | zero => rfl
    | succ g => simp only [find_next_non_quoted_newline_loop, hp, if_false]
  | succ f ih =>
    cases f2 with
    | zero =>
      have hp : ¬ pos < e := by omega
      simp only [find_next_non_quoted_newline_loop, hp, if_false]
    | succ g =>
      simp only [find_next_non_quoted_newline_loop]
      by_cases hp : pos < e
      · have hf : e - (pos + strcspn buf pos (c_str [13, 10, quote, 0]) + 1) ≤ f := by omega
        have hg : e - (pos + strcspn buf pos (c_str [13, 10, quote, 0]) + 1) ≤ g := by omega
        simp only [hp, if_true]
        rw [ih g _ in_quote hf hg, ih g _ _ hf hg]
      · simp only [hp, if_false]

/-- One iteration of the loop of `find_next_non_quoted_newline`. -/
theorem scan_from_step (buf : List Nat) (e quote pos : Nat) (in_quote : Bool) (hp : pos < e) :
    scan_from buf e quote pos in_quote =
      if byteAt buf (pos + strcspn buf pos (c_str [13, 10, quote, 0])) = 10 ∨
          byteAt buf (pos + strcspn buf pos (c_str [13, 10, quote, 0])) = 13 then
        if in_quote = true then
          scan_from buf e quote (pos + strcspn buf pos (c_str [13, 10, quote, 0]) + 1) in_quote
        else if byteAt buf (pos + strcspn buf pos (c_str [13, 10, quote, 0])) = 10 then
          (pos + strcspn buf pos (c_str [13, 10, quote, 0]), LF)
        else if is_crlf buf (pos + strcspn buf pos (c_str [13, 10, quote, 0])) e = true then
          (pos + strcspn buf pos (c_str [13, 10, quote, 0]) + 1, CRLF)
        else (pos + strcspn buf pos (c_str [13, 10, quote, 0]), CR)
      else
        scan_from buf e quote (pos + strcspn buf pos (c_str [13, 10, quote, 0]) + 1)
          (if byteAt buf (pos + strcspn buf pos (c_str [13, 10, quote, 0])) = quote
            then !in_quote else in_quote) := by
  unfold scan_from
  obtain ⟨k, hk⟩ : ∃ k, e - pos = k + 1 := ⟨e - pos - 1, by omega⟩
  rw [hk]
  simp only [find_next_non_quoted_newline_loop, hp, if_true]
  have hf : e - (pos + strcspn buf pos (c_str [13, 10, quote, 0]) + 1) ≤ k := by omega
  rw [find_next_non_quoted_newline_loop_fuel buf e quote k _ _ in_quote hf le_rfl,
    find_next_non_quoted_newline_loop_fuel buf e quote k _ _ _ hf le_rfl]

theorem scan_from_exit (buf : List Nat) (e quote pos : Nat) (in_quote : Bool) (hp : e ≤ pos) :
    scan_from buf e quote pos in_quote = (e, NA) := by
  unfold scan_from
  rw [show e - pos = 0 by omega]
  simp only [find_next_non_quoted_newline_loop]
  split_ifs with h
  · rfl
  · rw [show pos = e by omega]

theorem find_next_non_quoted_newline_eq (buf : List Nat) (start quote : Nat)
    (h : start ≤ size_minus_one buf.length) :
    find_next_non_quoted_newline buf start quote =
      scan_from buf (size_minus_one buf.length) quote start false := by
  simp [find_next_non_quoted_newline, scan_from, Nat.not_lt.mpr h]

theorem strcspn_query4_no_quote (buf : List Nat) (quote pos i : Nat) (hq : quote ≠ 0)
    (h1 : pos ≤ i) (h2 : i < pos + strcspn buf pos (c_str [13, 10, quote, 0])) :
    byteAt buf i ≠ quote := by
  have h := (strcspn_before buf pos _ i h1 h2).2
  rw [mem_query4] at h
  intro hc
  exact h (Or.inr (Or.inr ⟨hc, hq⟩))

/-- The parity of the quote bytes from `pos` on, across one `strcspn` jump of the
quote-aware scanner and the byte it stops at. -/
theorem odd_quotes_jump (buf : List Nat) (quote pos i : Nat) (hq : quote ≠ 0)
    (hi : pos + strcspn buf pos (c_str [13, 10, quote, 0]) + 1 ≤ i) :
    odd_quotes buf quote pos i =
      xor (decide (byteAt buf (pos + strcspn buf pos (c_str [13, 10, quote, 0])) = quote))
        (odd_quotes buf quote (pos + strcspn buf pos (c_str [13, 10, quote, 0]) + 1) i) := by
  rw [odd_quotes_split buf quote pos (pos + strcspn buf pos (c_str [13, 10, quote, 0])) i
      (by omega) (by omega),
    odd_quotes_split buf quote (pos + strcspn buf pos (c_str [13, 10, quote, 0]))
      (pos + strcspn buf pos (c_str [13, 10, quote, 0]) + 1) i (by omega) hi,
    odd_quotes_of_absent buf quote pos _
      (fun j h1 h2 _ => strcspn_query4_no_quote buf quote pos j hq h1 h2),
    odd_quotes_one buf quote _ hq]
  simp

/-- From a state of the quote-aware scanner in which every terminator before the
terminator at `p < end` is quoted, the scan reaches `p` with the flag given by the
parity of the quote bytes passed. -/
theorem scan_from_to_terminator (buf : List Nat) (e quote : Nat) (hq0 : quote ≠ 0)
    (hq10 : quote ≠ 10) (hq13 : quote ≠ 13) (p : Nat) (hpe : p < e)
    (hterm : byteAt buf p = 10 ∨ byteAt buf p = 13) :
    ∀ (n pos : Nat) (in_quote : Bool), p - pos = n → pos ≤ p →
      (∀ i, pos ≤ i → i < p → (byteAt buf i = 10 ∨ byteAt buf i = 13) →
        xor in_quote (odd_quotes buf quote pos i) = true) →
      scan_from buf e quote pos in_quote =
        if xor in_quote (odd_quotes buf quote pos p) = true then
          scan_from buf e quote (p + 1) true
        else if byteAt buf p = 10 then (p, LF)
        else if is_crlf buf p e = true then (p + 1, CRLF)
        else (p, CR) := by
  intro n
  induction n using Nat.strong_induction_on with
  | _ n ih =>
    intro pos in_quote hn hle hquoted
    have hjump : pos + strcspn buf pos (c_str [13, 10, quote, 0]) ≤ p := by
      by_contra hlt
      have h := (strcspn_before buf pos (c_str [13, 10, quote, 0]) p hle (by omega)).2
      rw [mem_query4] at h
      tauto
    have habs : odd_quotes buf quote pos
        (pos + strcspn buf pos (c_str [13, 10, quote, 0])) = false :=
      odd_quotes_of_absent buf quote pos _
        (fun j h1 h2 _ => strcspn_query4_no_quote buf quote pos j hq0 h1 h2)
    rw [scan_from_step buf e quote pos in_quote (by omega)]
    rcases Nat.eq_or_lt_of_le hjump with heq | hlt
    · rw [heq] at habs ⊢
      rw [habs]
      cases in_quote <;> simp [hterm]
    · by_cases hc : byteAt buf (pos + strcspn buf pos (c_str [13, 10, quote, 0])) = 10 ∨
          byteAt buf (pos + strcspn buf pos (c_str [13, 10, quote, 0])) = 13
      · have hin := hquoted _ (by omega) hlt hc
        rw [habs] at hin
        have hin' : in_quote = true := by simpa using hin
        have hcq : byteAt buf (pos + strcspn buf pos (c_str [13, 10, quote, 0])) ≠ quote := by
          rcases hc with h | h <;> rw [h] <;> [exact Ne.symm hq10; exact Ne.symm hq13]
        rw [if_pos hc, if_pos hin']
        rw [ih (p - (pos + strcspn buf pos (c_str [13, 10, quote, 0]) + 1)) (by omega) _ in_quote
          rfl (by omega)]
        · rw [odd_quotes_jump buf quote pos p hq0 (by omega)]
          simp [hcq]
        · intro i h1 h2 h3
          have := hquoted i (by omega) h2 h3
          rw [odd_quotes_jump buf quote pos i hq0 h1] at this
          simpa [hcq] using this
      · rw [if_neg hc]
        rw [ih (p - (pos + strcspn buf pos (c_str [13, 10, quote, 0]) + 1)) (by omega) _ _
          rfl (by omega)]
        · rw [odd_quotes_jump buf quote pos p hq0 (by omega)]
          by_cases hcq : byteAt buf (pos + strcspn buf pos (c_str [13, 10, quote, 0])) = quote
          · cases in_quote <;> simp [hcq]
          · simp [hcq]
        · intro i h1 h2 h3
          have := hquoted i (by omega) h2 h3
          rw [odd_quotes_jump buf quote pos i hq0 h1] at this
          by_cases hcq : byteAt buf (pos + strcspn buf pos (c_str [13, 10, quote, 0])) = quote
          · cases in_quote <;> simpa [hcq] using this
          · simpa [hcq] using this

/-- When every terminator from `pos` on is quoted, the quote-aware scan runs to the end
of the buffer. -/
theorem scan_from_all_quoted (buf : List Nat) (e quote : Nat) (hq0 : quote ≠ 0)
    (hq10 : quote ≠ 10) (hq13 : quote ≠ 13) :
    ∀ (n pos : Nat) (in_quote : Bool), e - pos = n →
      (∀ i, pos ≤ i → (byteAt buf i = 10 ∨ byteAt buf i = 13) →
        xor in_quote (odd_quotes buf quote pos i) = true) →
      scan_from buf e quote pos in_quote = (e, NA) := by
  intro n
  induction n using Nat.strong_induction_on with
  | _ n ih =>
    intro pos in_quote hn hquoted
    by_cases hp : pos < e
    · have habs : odd_quotes buf quote pos
          (pos + strcspn buf pos (c_str [13, 10, quote, 0])) = false :=
        odd_quotes_of_absent buf quote pos _
          (fun j h1 h2 _ => strcspn_query4_no_quote buf quote pos j hq0 h1 h2)
      rw [scan_from_step buf e quote pos in_quote hp]
      by_cases hc : byteAt buf (pos + strcspn buf pos (c_str [13, 10, quote, 0])) = 10 ∨
          byteAt buf (pos + strcspn buf pos (c_str [13, 10, quote, 0])) = 13
      · have hin := hquoted _ (by omega) hc
        rw [habs] at hin
        have hin' : in_quote = true := by simpa using hin
        have hcq : byteAt buf (pos + strcspn buf pos (c_str [13, 10, quote, 0])) ≠ quote := by
          rcases hc with h | h <;> rw [h] <;> [exact Ne.symm hq10; exact Ne.symm hq13]
        rw [if_pos hc, if_pos hin']
        apply ih (e - (pos + strcspn buf pos (c_str [13, 10, quote, 0]) + 1)) (by omega) _ _ rfl
        intro i h1 h3
        have := hquoted i (by omega) h3
        rw [odd_quotes_jump buf quote pos i hq0 h1] at this
        simpa [hcq] using this
      · rw [if_neg hc]
        apply ih (e - (pos + strcspn buf pos (c_str [13, 10, quote, 0]) + 1)) (by omega) _ _ rfl
        intro i h1 h3
        have := hquoted i (by omega) h3
        rw [odd_quotes_jump buf quote pos i hq0 h1] at this
        by_cases hcq : byteAt buf (pos + strcspn buf pos (c_str [13, 10, quote, 0])) = quote
        · cases in_quote <;> simpa [hcq] using this
        · simpa [hcq] using this
    · exact scan_from_exit buf e quote pos in_quote (by omega)

/-! ## The byte-order-mark detector -/

/-- C1: on a non-empty buffer `skip_bom` returns 3 exactly when the buffer starts with
EF BB BF, 4 exactly when it starts with FF FE 00 00 or with 00 00 FE FF, 2 exactly when
it starts with FE FF or with FF FE not followed by 00 00, and 0 for every other buffer;
the result never exceeds the length of the buffer. -/
theorem skip_bom_spec (buf : List Nat) (h : buf ≠ []) :
    (skip_bom buf = 3 ↔ [0xEF, 0xBB, 0xBF] <+: buf) ∧
    (skip_bom buf = 4 ↔
      ([0xFF, 0xFE, 0x00, 0x00] <+: buf ∨ [0x00, 0x00, 0xFE, 0xFF] <+: buf)) ∧
    (skip_bom buf = 2 ↔
      ([0xFE, 0xFF] <+: buf ∨ ([0xFF, 0xFE] <+: buf ∧ ¬ [0xFF, 0xFE, 0x00, 0x00] <+: buf))) ∧
    (¬ [0xEF, 0xBB, 0xBF] <+: buf → ¬ [0xFF, 0xFE, 0x00, 0x00] <+: buf →
      ¬ [0x00, 0x00, 0xFE, 0xFF] <+: buf → ¬ [0xFE, 0xFF] <+: buf → ¬ [0xFF, 0xFE] <+: buf →
      skip_bom buf = 0) ∧
    skip_bom buf ≤ buf.length := by
  rcases buf with _ | ⟨a, _ | ⟨b, _ | ⟨c, _ | ⟨d, t⟩⟩⟩⟩
  · exact absurd rfl h
  all_goals
    simp only [skip_bom, byteAt, List.getD_cons_zero, List.getD_cons_succ, List.getD_nil,
      List.cons_prefix_cons, List.nil_prefix, List.prefix_nil, List.length_cons,
      List.length_nil]
    split_ifs <;> simp_all <;> omega

theorem skip_bom_spec_witness :
    [0xFF, 0xFE, 0x61] ≠ [] ∧ skip_bom [0xFF, 0xFE, 0x61] = 2 ∧
      skip_bom [0xFF, 0xFE, 0x61] ≤ [0xFF, 0xFE, 0x61].length :=
  ⟨by decide, (skip_bom_spec [0xFF, 0xFE, 0x61] (by decide)).2.2.1.mpr (by decide),
    (skip_bom_spec [0xFF, 0xFE, 0x61] (by decide)).2.2.2.2⟩

/-! ## What the quote-aware scanner returns -/

/-- The quote-aware scanner at the first unquoted terminator `p`, when `p` is not the
last byte of the buffer. -/
theorem find_next_non_quoted_newline_inner (buf : List Nat) (start quote p : Nat)
    (hq0 : quote ≠ 0) (hq10 : quote ≠ 10) (hq13 : quote ≠ 13)
    (hp : first_unquoted_terminator buf quote start p) (hlast : p + 1 < buf.length) :
    find_next_non_quoted_newline buf start quote =
      if byteAt buf p = 10 then (p, LF)
      else if is_crlf buf p (buf.length - 1) = true then (p + 1, CRLF)
      else (p, CR) := by
  obtain ⟨⟨h1, h2, h3, h4⟩, hmin⟩ := hp
  have he : size_minus_one buf.length = buf.length - 1 := size_minus_one_pos _ (by omega)
  rw [find_next_non_quoted_newline_eq buf start quote (by rw [he]; omega), he,
    scan_from_to_terminator buf (buf.length - 1) quote hq0 hq10 hq13 p (by omega) h3
      (p - start) start false rfl h1]
  · simp [h4]
  · intro i hi1 hi2 hi3
    have := hmin i hi2
    simp only [unquoted_terminator_at, not_and, Bool.not_eq_false] at this
    simpa using this hi1 (by omega) hi3

/-- C2, evaluated: on the buffer `a,"b"` followed by LF, scanned from 0 with the quote
byte `"`, the first unquoted terminator is the LF at index 5, the last byte, and
`find_next_non_quoted_newline` returns the kind `NA` with it, where
`find_next_newline` without quote handling returns `LF`. -/
theorem find_next_non_quoted_newline_final_LF :
    first_unquoted_terminator [97, 44, 34, 98, 34, 10] 34 0 5 ∧
    byteAt [97, 44, 34, 98, 34, 10] 5 = 10 ∧
    find_next_non_quoted_newline [97, 44, 34, 98, 34, 10] 0 34 = (5, NA) ∧
    find_next_newline [97, 44, 34, 98, 34, 10] 0 [] false false 34 = (5, LF) := by
  decide

/-- C3, evaluated: on the buffer `a` CR LF, whose LF is the last byte, scanned from 0,
the first unquoted terminator is the CR at index 1 and it is followed by LF, and
`find_next_non_quoted_newline` returns `(1, CR)`, not `(2, CRLF)`; with one more byte
after the pair it returns `(2, CRLF)`. -/
theorem find_next_non_quoted_newline_final_CRLF :
    first_unquoted_terminator [97, 13, 10] 34 0 1 ∧
    byteAt [97, 13, 10] 1 = 13 ∧ byteAt [97, 13, 10] 2 = 10 ∧
    find_next_non_quoted_newline [97, 13, 10] 0 34 = (1, CR) ∧
    find_next_non_quoted_newline [97, 13, 10, 98] 0 34 = (2, CRLF) := by
  decide

/-- On a source whose memory ends with the buffer, `find_next_non_quoted_newline_in` is
`find_next_non_quoted_newline`. -/
theorem find_next_non_quoted_newline_in_length (buf : List Nat) (start quote : Nat) :
    find_next_non_quoted_newline_in buf buf.length start quote =
      find_next_non_quoted_newline buf start quote :=
  rfl

theorem find_next_non_quoted_newline_in_eq (mem : List Nat) (size start quote : Nat)
    (h : start ≤ size_minus_one size) :
    find_next_non_quoted_newline_in mem size start quote =
      scan_from mem (size_minus_one size) quote start false := by
  simp [find_next_non_quoted_newline_in, scan_from, Nat.not_lt.mpr h]

/-- When the byte behind `end` is NUL and every terminator from `pos` up to `end` is
quoted, the quote-aware scan runs to the end of the buffer and no further. -/
theorem scan_from_all_quoted_to_nul (mem : List Nat) (e quote : Nat) (hq0 : quote ≠ 0)
    (hq10 : quote ≠ 10) (hq13 : quote ≠ 13) (hnul : byteAt mem (e + 1) = 0) :
    ∀ (n pos : Nat) (in_quote : Bool), e - pos = n →
      (∀ i, pos ≤ i → i ≤ e → (byteAt mem i = 10 ∨ byteAt mem i = 13) →
        xor in_quote (odd_quotes mem quote pos i) = true) →
      scan_from mem e quote pos in_quote = (e, NA) := by
  intro n
  induction n using Nat.strong_induction_on with
  | _ n ih =>
    intro pos in_quote hn hquoted
    by_cases hp : pos < e
    · have hstop : pos + strcspn mem pos (c_str [13, 10, quote, 0]) ≤ e + 1 := by
        by_contra hgt
        exact (strcspn_before mem pos (c_str [13, 10, quote, 0]) (e + 1) (by omega)
          (by omega)).1 hnul
      have habs : odd_quotes mem quote pos
          (pos + strcspn mem pos (c_str [13, 10, quote, 0])) = false :=
        odd_quotes_of_absent mem quote pos _
          (fun j h1 h2 _ => strcspn_query4_no_quote mem quote pos j hq0 h1 h2)
      rw [scan_from_step mem e quote pos in_quote hp]
      by_cases hc : byteAt mem (pos + strcspn mem pos (c_str [13, 10, quote, 0])) = 10 ∨
          byteAt mem (pos + strcspn mem pos (c_str [13, 10, quote, 0])) = 13
      · have hle : pos + strcspn mem pos (c_str [13, 10, quote, 0]) ≤ e := by
          rcases Nat.eq_or_lt_of_le hstop with heq | hlt
          · rw [heq, hnul] at hc
            omega
          · omega
        have hin := hquoted _ (by omega) hle hc
        rw [habs] at hin
        have hin' : in_quote = true := by simpa using hin
        have hcq : byteAt mem (pos + strcspn mem pos (c_str [13, 10, quote, 0])) ≠ quote := by
          rcases hc with h | h <;> rw [h] <;> [exact Ne.symm hq10; exact Ne.symm hq13]
        rw [if_pos hc, if_pos hin']
        apply ih (e - (pos + strcspn mem pos (c_str [13, 10, quote, 0]) + 1)) (by omega) _ _ rfl
        intro i h1 h2 h3
        have := hquoted i (by omega) h2 h3
        rw [odd_quotes_jump mem quote pos i hq0 h1] at this
        simpa [hcq] using this
      · rw [if_neg hc]
        apply ih (e - (pos + strcspn mem pos (c_str [13, 10, quote, 0]) + 1)) (by omega) _ _ rfl
        intro i h1 h2 h3
        have := hquoted i (by omega) h2 h3
        rw [odd_quotes_jump mem quote pos i hq0 h1] at this
        by_cases hcq : byteAt mem (pos + strcspn mem pos (c_str [13, 10, quote, 0])) = quote
        · cases in_quote <;> simpa [hcq] using this
        · simpa [hcq] using this
    · exact scan_from_exit mem e quote pos in_quote (by omega)

/-- C4 fails when the byte behind the buffer is not NUL: on the buffer `abc`, which holds
no CR or LF, followed in memory by LF, `find_next_non_quoted_newline` from 0 returns
`(3, LF)`, an offset behind the buffer, and not `(2, NA)`. -/
theorem find_next_non_quoted_newline_overrun_counterexample :
    (∀ i, 0 ≤ i → i < 3 →
      (byteAt [97, 98, 99, 10] i = 10 ∨ byteAt [97, 98, 99, 10] i = 13) →
      odd_quotes [97, 98, 99, 10] 34 0 i = true) ∧
    find_next_non_quoted_newline_in [97, 98, 99, 10] 3 0 34 = (3, LF) ∧
    find_next_non_quoted_newline_in [97, 98, 99, 10] 3 0 34 ≠ (3 - 1, NA) := by
  decide

/-- C4, amended: on a non-empty buffer that is followed in memory by a NUL byte, when
every CR or LF byte at an index `≥ start` of the buffer is preceded by an odd number of
quote bytes counted from `start`, `find_next_non_quoted_newline` returns the last valid
index with the kind `NA`. -/
theorem find_next_non_quoted_newline_no_unquoted_terminator (mem : List Nat)
    (size start quote : Nat) (hs : start < size)
    (hq13 : quote ≠ 13) (hq10 : quote ≠ 10) (hq0 : quote ≠ 0)
    (hnul : byteAt mem size = 0)
    (h : ∀ i, start ≤ i → i < size → (byteAt mem i = 10 ∨ byteAt mem i = 13) →
      odd_quotes mem quote start i = true) :
    find_next_non_quoted_newline_in mem size start quote = (size - 1, NA) := by
  have he : size_minus_one size = size - 1 := size_minus_one_pos _ (by omega)
  rw [find_next_non_quoted_newline_in_eq mem size start quote (by rw [he]; omega), he]
  apply scan_from_all_quoted_to_nul mem (size - 1) quote hq0 hq10 hq13
    (by rw [show size - 1 + 1 = size by omega]; exact hnul) _ start false rfl
  intro i hi1 hi2 hi3
  simpa using h i hi1 (by omega) hi3

theorem find_next_non_quoted_newline_no_unquoted_terminator_witness :
    byteAt [97, 34, 98, 10, 99, 0, 10] 5 = 0 ∧
    (∀ i, 0 ≤ i → i < 5 →
      (byteAt [97, 34, 98, 10, 99, 0, 10] i = 10 ∨ byteAt [97, 34, 98, 10, 99, 0, 10] i = 13) →
      odd_quotes [97, 34, 98, 10, 99, 0, 10] 34 0 i = true) ∧
    find_next_non_quoted_newline_in [97, 34, 98, 10, 99, 0, 10] 5 0 34 = (4, NA) :=
  ⟨by decide, by decide,
    find_next_non_quoted_newline_no_unquoted_terminator [97, 34, 98, 10, 99, 0, 10] 5 0 34
      (by decide) (by decide) (by decide) (by decide) (by decide) (by decide)⟩

/-! ## The scanner without quote handling -/

/-- The fast path of `find_next_newline` stops at the first index `p ≥ start` that
holds CR, LF or NUL. -/
theorem find_next_newline_fast (buf : List Nat) (start p : Nat) (comment : List Nat)
    (skip_empty_rows : Bool) (quote : Nat) (hs : start < buf.length) (hsp : start ≤ p)
    (hbefore : ∀ i, start ≤ i → i < p →
      byteAt buf i ≠ 0 ∧ byteAt buf i ≠ 13 ∧ byteAt buf i ≠ 10)
    (hstop : byteAt buf p = 0 ∨ byteAt buf p = 13 ∨ byteAt buf p = 10) :
    find_next_newline buf start comment skip_empty_rows false quote =
      if byteAt buf p = 10 then (p, LF)
      else if byteAt buf p = 13 then
        if is_crlf buf p buf.length = true then (p, CRLF) else (p, CR)
      else (p, NA) := by
  have hpos : start + strcspn buf start (c_str [13, 10, 0]) = p := by
    apply strcspn_eq buf start p _ hsp
    · intro i h1 h2
      have := hbefore i h1 h2
      rw [mem_query3]
      tauto
    · rw [mem_query3]
      tauto
  simp only [find_next_newline, ge_iff_le, Nat.not_le.mpr hs, if_false, hpos]
  simp

/-- The offset returned by the fast path of `find_next_newline` is the first index
`≥ start` that holds CR, LF or NUL, the NUL after the buffer included. -/
theorem find_next_newline_fast_offset (buf : List Nat) (start : Nat) (comment : List Nat)
    (skip_empty_rows : Bool) (quote : Nat) (hs : start < buf.length) :
    start ≤ (find_next_newline buf start comment skip_empty_rows false quote).1 ∧
    (find_next_newline buf start comment skip_empty_rows false quote).1 ≤ buf.length ∧
    (∀ i, start ≤ i →
      i < (find_next_newline buf start comment skip_empty_rows false quote).1 →
      byteAt buf i ≠ 0 ∧ byteAt buf i ≠ 13 ∧ byteAt buf i ≠ 10) := by
  have hfst : (find_next_newline buf start comment skip_empty_rows false quote).1 =
      start + strcspn buf start (c_str [13, 10, 0]) := by
    simp only [find_next_newline, ge_iff_le, Nat.not_le.mpr hs, if_false]
    simp only [Bool.false_eq_true, if_false]
    split_ifs <;> rfl
  rw [hfst]
  refine ⟨by omega, strcspn_le buf start _ (by omega), ?_⟩
  intro i h1 h2
  have := strcspn_before buf start _ i h1 h2
  rw [mem_query3] at this
  tauto

/-- C5, evaluated: on the buffer `abc`, which holds no CR or LF, the fast path of
`find_next_newline` from 0 returns the offset 3, the length of the buffer, and not the
last valid index 2; on the buffer `a` NUL `b` it returns the offset 1 of the NUL. -/
theorem find_next_newline_no_terminator_overrun :
    (∀ i, 0 ≤ i → i < [97, 98, 99].length →
      ¬ (byteAt [97, 98, 99] i = 10 ∨ byteAt [97, 98, 99] i = 13)) ∧
    find_next_newline [97, 98, 99] 0 [] false false 34 = (3, NA) ∧
    find_next_newline [97, 0, 98] 0 [] false false 34 = (1, NA) := by
  decide

/-- C6 fails in both directions: a start offset past the buffer gives an offset below
`start`, and a buffer without CR, LF and NUL gives an offset above `length - 1`. -/
theorem find_next_newline_offset_bounds_counterexample :
    ¬ (5 ≤ (find_next_newline [97] 5 [] false false 34).1) ∧
    ¬ ((find_next_newline [97, 98, 99] 0 [] false false 34).1 ≤ [97, 98, 99].length - 1) := by
  decide

/-- C6, amended: on a non-empty buffer the fast path of `find_next_newline` returns an
offset `≥ start` when `start` lies inside the buffer, the pair `(length - 1, NA)` when
`start` lies past it, and an offset `≤ length - 1` whenever `start` lies past the buffer
or some byte at an index in `[start, length)` is CR, LF or NUL. -/
theorem find_next_newline_offset_bounds (buf : List Nat) (start : Nat) (comment : List Nat)
    (skip_empty_rows : Bool) (quote : Nat) (hne : buf ≠ []) :
    (start < buf.length →
      start ≤ (find_next_newline buf start comment skip_empty_rows false quote).1) ∧
    (buf.length ≤ start →
      find_next_newline buf start comment skip_empty_rows false quote =
        (buf.length - 1, NA)) ∧
    ((buf.length ≤ start ∨ ∃ i, start ≤ i ∧ i < buf.length ∧
        (byteAt buf i = 13 ∨ byteAt buf i = 10 ∨ byteAt buf i = 0)) →
      (find_next_newline buf start comment skip_empty_rows false quote).1 ≤
        buf.length - 1) := by
  have hlen : 0 < buf.length := List.length_pos.mpr hne
  have hpast : buf.length ≤ start →
      find_next_newline buf start comment skip_empty_rows false quote =
        (buf.length - 1, NA) := by
    intro h
    simp [find_next_newline, h, size_minus_one_pos _ hlen]
  refine ⟨fun hs => (find_next_newline_fast_offset buf start comment skip_empty_rows quote hs).1,
    hpast, ?_⟩
  rintro (h | ⟨i, h1, h2, h3⟩)
  · rw [hpast h]
  · have hs : start < buf.length := by omega
    have hoff := (find_next_newline_fast_offset buf start comment skip_empty_rows quote hs).2.2
    by_contra hgt
    have := hoff i h1 (by omega)
    tauto

theorem find_next_newline_offset_bounds_witness :
    [120, 10, 121] ≠ [] ∧
    (find_next_newline [120, 10, 121] 0 [] false false 34).1 ≤ [120, 10, 121].length - 1 :=
  ⟨by decide,
    (find_next_newline_offset_bounds [120, 10, 121] 0 [] false 34 (by decide)).2.2
      (Or.inr ⟨1, by decide, by decide, by decide⟩)⟩

/-- C7: when `p` is the smallest index `≥ start` holding CR or LF and no NUL lies in
`[start, p)`, the fast path of `find_next_newline` returns the offset `p`, with the kind
`LF` when the byte at `p` is LF and the kind `CR` when it is a CR that is not followed
by LF; the comment prefix and `skip_empty_rows` have no influence on the result. -/
theorem find_next_newline_first_terminator (buf : List Nat) (start p : Nat)
    (comment : List Nat) (skip_empty_rows : Bool) (quote : Nat) (hs : start < buf.length)
    (hp : first_terminator buf start p)
    (hnul : ∀ i, start ≤ i → i < p → byteAt buf i ≠ 0) :
    (find_next_newline buf start comment skip_empty_rows false quote).1 = p ∧
    (byteAt buf p = 10 →
      (find_next_newline buf start comment skip_empty_rows false quote).2 = LF) ∧
    (byteAt buf p = 13 → ¬ (p + 1 < buf.length ∧ byteAt buf (p + 1) = 10) →
      (find_next_newline buf start comment skip_empty_rows false quote).2 = CR) ∧
    (∀ (comment' : List Nat) (skip_empty_rows' : Bool),
      find_next_newline buf start comment' skip_empty_rows' false quote =
        find_next_newline buf start comment skip_empty_rows false quote) := by
  obtain ⟨h1, h2, h3, h4⟩ := hp
  have hfast := fun c s => find_next_newline_fast buf start p c s quote hs h1
    (fun i hi1 hi2 => ⟨hnul i hi1 hi2, fun h => h4 i hi1 hi2 (Or.inr h),
      fun h => h4 i hi1 hi2 (Or.inl h)⟩) (by tauto)
  refine ⟨?_, ?_, ?_, ?_⟩
  · rw [hfast]
    split_ifs <;> rfl
  · intro h10
    rw [hfast, if_pos h10]
  · intro h13 hnot
    have hcr : is_crlf buf p buf.length = false := by
      simp only [is_crlf, decide_eq_false_iff_not]
      tauto
    rw [hfast, if_neg (by omega), if_pos h13, hcr]
    simp
  · intro c s
    rw [hfast, hfast]

theorem find_next_newline_first_terminator_witness :
    first_terminator [120, 121, 10, 122] 0 2 ∧
    (find_next_newline [120, 121, 10, 122] 0 [35] true false 34).1 = 2 :=
  ⟨by decide,
    (find_next_newline_first_terminator [120, 121, 10, 122] 0 2 [35] true 34 (by decide)
      (by decide) (by decide)).1⟩

/-- C8 fails: on the buffer `x` CR LF `y` the fast path of `find_next_newline` from 0
returns the kind `CRLF` at the offset 1 of the CR, not the kind `CR`; and on the buffer
NUL CR LF it stops at the NUL at offset 0. -/
theorem find_next_newline_crlf_kind_counterexample :
    first_terminator [120, 13, 10, 121] 0 1 ∧
    byteAt [120, 13, 10, 121] 1 = 13 ∧ byteAt [120, 13, 10, 121] 2 = 10 ∧
    find_next_newline [120, 13, 10, 121] 0 [] false false 34 ≠ (1, CR) ∧
    first_terminator [0, 13, 10] 0 1 ∧
    find_next_newline [0, 13, 10] 0 [] false false 34 = (0, NA) := by
  decide

/-- C8, amended: when the first CR-or-LF byte at or after `start` is a CR at index `p`
immediately followed by LF and no NUL lies in `[start, p)`, the fast path of
`find_next_newline` returns `(p, CRLF)`: the offset of the CR byte with the kind `CRLF`. -/
theorem find_next_newline_crlf (buf : List Nat) (start p : Nat) (comment : List Nat)
    (skip_empty_rows : Bool) (quote : Nat) (hs : start < buf.length)
    (hp : first_terminator buf start p) (hcr : byteAt buf p = 13)
    (hlf : p + 1 < buf.length ∧ byteAt buf (p + 1) = 10)
    (hnul : ∀ i, start ≤ i → i < p → byteAt buf i ≠ 0) :
    find_next_newline buf start comment skip_empty_rows false quote = (p, CRLF) := by
  obtain ⟨h1, h2, h3, h4⟩ := hp
  have hfast := find_next_newline_fast buf start p comment skip_empty_rows quote hs h1
    (fun i hi1 hi2 => ⟨hnul i hi1 hi2, fun h => h4 i hi1 hi2 (Or.inr h),
      fun h => h4 i hi1 hi2 (Or.inl h)⟩) (by tauto)
  have hc : is_crlf buf p buf.length = true := by
    simp only [is_crlf, decide_eq_true_eq]
    tauto
  rw [hfast, if_neg (by omega), if_pos hcr, hc]
  simp

theorem find_next_newline_crlf_witness :
    first_terminator [120, 13, 10, 121] 0 1 ∧
    find_next_newline [120, 13, 10, 121] 0 [] false false 34 = (1, CRLF) :=
  ⟨by decide,
    find_next_newline_crlf [120, 13, 10, 121] 0 1 [] false 34 (by decide) (by decide)
      (by decide) (by decide) (by decide)⟩

/-! ## Lines laid out in a buffer -/

theorem byteAt_append_right (pre x : List Nat) (i : Nat) :
    byteAt (pre ++ x) (pre.length + i) = byteAt x i := by
  unfold byteAt
  rw [List.getD_append_right _ _ _ _ (by omega)]
  congr 1
  omega

theorem byteAt_append_length (pre x : List Nat) :
    byteAt (pre ++ x) pre.length = x.headD 0 := by
  have := byteAt_append_right pre x 0
  rw [Nat.add_zero] at this
  rw [this]
  cases x <;> rfl

theorem byteAt_append_left (x y : List Nat) (i : Nat) (h : i < x.length) :
    byteAt (x ++ y) i = byteAt x i := by
  unfold byteAt
  exact List.getD_append _ _ _ _ h

theorem strcspn_str_line (reject line : List Nat) (c : Nat) (post : List Nat)
    (hline : ∀ x ∈ line, x ≠ 0 ∧ x ∉ reject) (hc : c = 0 ∨ c ∈ reject) :
    strcspn_str reject (line ++ c :: post) = line.length := by
  induction line with
  | nil => simp [strcspn_str, hc]
  | cons a as ih =>
    have ha := hline a (List.mem_cons_self _ _)
    have hrec := ih (fun x hx => hline x (List.mem_cons_of_mem _ hx))
    rw [List.cons_append, strcspn_str, if_neg (by tauto), hrec, List.length_cons]

theorem strcspn_line (pre line : List Nat) (c : Nat) (post reject : List Nat)
    (hline : ∀ x ∈ line, x ≠ 0 ∧ x ∉ reject) (hc : c = 0 ∨ c ∈ reject) :
    strcspn (pre ++ (line ++ c :: post)) pre.length reject = line.length := by
  unfold strcspn
  rw [List.drop_left]
  exact strcspn_str_line reject line c post hline hc

theorem c_str_of_no_nul (s : List Nat) (h : ∀ x ∈ s, x ≠ 0) : c_str s = s := by
  unfold c_str
  rw [List.takeWhile_eq_self_iff]
  intro x hx
  simpa using h x hx

/-- The scanner that `find_first_line` calls, at the start of a line without CR, LF
and NUL that ends with LF and is not the end of the buffer; with `embedded_nl` the line
holds no quote byte either. -/
theorem find_next_newline_line (pre line post : List Nat) (embedded_nl : Bool) (quote : Nat)
    (hpost : post ≠ [])
    (hline : ∀ x ∈ line, x ≠ 13 ∧ x ≠ 10 ∧ x ≠ 0 ∧ (embedded_nl = true → x ≠ quote)) :
    find_next_newline (pre ++ (line ++ 10 :: post)) pre.length [] false embedded_nl quote =
      (pre.length + line.length, LF) := by
  have hpl : 0 < post.length := List.length_pos.mpr hpost
  have hlen : (pre ++ (line ++ 10 :: post)).length =
      pre.length + line.length + 1 + post.length := by
    simp only [List.length_append, List.length_cons]
    omega
  have hbyte : byteAt (pre ++ (line ++ 10 :: post)) (pre.length + line.length) = 10 := by
    rw [byteAt_append_right, byteAt_append_length]
    rfl
  cases embedded_nl with
  | false =>
    have hpos : strcspn (pre ++ (line ++ 10 :: post)) pre.length (c_str [13, 10, 0]) =
        line.length := by
      apply strcspn_line
      · intro x hx
        have := hline x hx
        rw [mem_query3]
        tauto
      · rw [mem_query3]
        tauto
    have hge : ¬ (pre ++ (line ++ 10 :: post)).length ≤ pre.length := by omega
    simp only [find_next_newline, ge_iff_le, hge, if_false, hpos, hbyte]
    simp
  | true =>
    have hpos : strcspn (pre ++ (line ++ 10 :: post)) pre.length (c_str [13, 10, quote, 0]) =
        line.length := by
      apply strcspn_line
      · intro x hx
        have := hline x hx
        rw [mem_query4]
        tauto
      · rw [mem_query4]
        tauto
    have he : size_minus_one (pre ++ (line ++ 10 :: post)).length =
        pre.length + line.length + post.length := by
      rw [size_minus_one_pos _ (by omega), hlen]
      omega
    have hfnn : find_next_newline (pre ++ (line ++ 10 :: post)) pre.length [] false true quote =
        find_next_non_quoted_newline (pre ++ (line ++ 10 :: post)) pre.length quote := by
      have hge : ¬ (pre ++ (line ++ 10 :: post)).length ≤ pre.length := by omega
      simp only [find_next_newline, ge_iff_le, hge, if_false, if_true]
    rw [hfnn, find_next_non_quoted_newline_eq _ _ _ (by rw [he]; omega), he,
      scan_from_step _ _ _ _ _ (by omega), hpos, hbyte]
    simp

/-! ## The line classifier on laid-out lines -/

theorem skip_spaces_tabs_run (w x : List Nat) (e : Nat)
    (hw : ∀ c ∈ w, c = 32 ∨ c = 9) (hx : x.headD 0 ≠ 32 ∧ x.headD 0 ≠ 9) :
    ∀ (pre : List Nat) (fuel : Nat), w.length ≤ fuel → pre.length + w.length ≤ e →
      skip_spaces_tabs (pre ++ (w ++ x)) e fuel pre.length = pre.length + w.length := by
  induction w with
  | nil =>
    intro pre fuel _ _
    cases fuel with
    | zero => rfl
    | succ f =>
      have hb : byteAt (pre ++ ([] ++ x)) pre.length = x.headD 0 := by
        rw [List.nil_append, byteAt_append_length]
      simp only [skip_spaces_tabs, hb]
      rw [if_neg (by tauto)]
      rfl
  | cons a as ih =>
    intro pre fuel hf he
    simp only [List.length_cons] at hf he
    obtain ⟨f, rfl⟩ : ∃ f, fuel = f + 1 := ⟨fuel - 1, by omega⟩
    have hb : byteAt (pre ++ (a :: as ++ x)) pre.length = a := by
      rw [byteAt_append_length]
      rfl
    have ha := hw a (List.mem_cons_self _ _)
    have hrec := ih (fun c hc => hw c (List.mem_cons_of_mem _ hc)) (pre ++ [a]) f (by omega)
      (by simp only [List.length_append, List.length_singleton]; omega)
    simp only [List.append_assoc, List.singleton_append, List.length_append,
      List.length_singleton] at hrec
    simp only [skip_spaces_tabs, hb]
    rw [if_pos ⟨by omega, ha⟩, List.cons_append, hrec, List.length_cons]
    omega

theorem strncmp_of_append (s rest : List Nat) : strncmp (s ++ rest) s s.length = 0 := by
  induction s with
  | nil => rfl
  | cons a as ih =>
    simp only [List.cons_append, List.length_cons, strncmp, List.headD_cons, ne_eq,
      not_true_eq_false, if_false, List.tail_cons]
    split_ifs
    · rfl
    · exact ih

theorem strncmp_head_ne (a b : List Nat) (n : Nat) (h : a.headD 0 ≠ b.headD 0) :
    strncmp a b (n + 1) ≠ 0 := by
  simp only [strncmp, ne_eq, h, not_false_eq_true, if_true]
  omega

theorem dropWhile_head_not_space_tab (line : List Nat) :
    (line.dropWhile (fun c => decide (c = 32 ∨ c = 9))).headD 0 ≠ 32 ∧
      (line.dropWhile (fun c => decide (c = 32 ∨ c = 9))).headD 0 ≠ 9 := by
  induction line with
  | nil => simp
  | cons a as ih =>
    by_cases ha : a = 32 ∨ a = 9
    · rw [List.dropWhile_cons_of_pos (by simpa using ha)]
      exact ih
    · rw [List.dropWhile_cons_of_neg (by simpa using ha)]
      simpa [not_or] using ha

/-- The whitespace loop of `is_blank_or_comment_line` gives the same result for every
number of allowed iterations that is at least `end - begin`. -/
theorem skip_spaces_tabs_fuel (buf : List Nat) (e : Nat) :
    ∀ (f1 f2 b : Nat), e - b ≤ f1 → e - b ≤ f2 →
      skip_spaces_tabs buf e f1 b = skip_spaces_tabs buf e f2 b := by
  have hexit : ∀ (f b : Nat), e - b ≤ 0 → skip_spaces_tabs buf e f b = b := by
    intro f b h
    cases f with
    | zero => rfl
    | succ g =>
      rw [skip_spaces_tabs, if_neg]
      omega
  intro f1
  induction f1 with
  | zero =>
    intro f2 b h1 _
    rw [hexit 0 b h1, hexit f2 b h1]
  | succ f ih =>
    intro f2 b h1 h2
    cases f2 with
    | zero => rw [hexit (f + 1) b h2, hexit 0 b h2]
    | succ g =>
      simp only [skip_spaces_tabs]
      split_ifs with hc
      · exact ih g (b + 1) (by omega) (by omega)
      · rfl

/-- A blank or comment line that ends with LF is classified as a line to skip. -/
theorem is_blank_or_comment_line_of_blank_or_comment (pre line post comment : List Nat)
    (hcomment : comment ≠ []) (hline : blank_or_comment comment line) :
    is_blank_or_comment_line (pre ++ (line ++ 10 :: post)) pre.length
      (pre ++ (line ++ 10 :: post)).length comment true = true := by
  have hsplit := List.takeWhile_append_dropWhile (fun c => decide (c = 32 ∨ c = 9)) line
  have hw : ∀ c ∈ line.takeWhile (fun c => decide (c = 32 ∨ c = 9)), c = 32 ∨ c = 9 := by
    intro c hc
    simpa using List.mem_takeWhile_imp hc
  have hbuf : pre ++ (line ++ 10 :: post) =
      pre ++ (line.takeWhile (fun c => decide (c = 32 ∨ c = 9)) ++
        (line.dropWhile (fun c => decide (c = 32 ∨ c = 9)) ++ 10 :: post)) := by
    rw [← List.append_assoc (line.takeWhile _), hsplit]
  have hx : (line.dropWhile (fun c => decide (c = 32 ∨ c = 9)) ++ 10 :: post).headD 0 ≠ 32 ∧
      (line.dropWhile (fun c => decide (c = 32 ∨ c = 9)) ++ 10 :: post).headD 0 ≠ 9 := by
    have := dropWhile_head_not_space_tab line
    cases hd : line.dropWhile (fun c => decide (c = 32 ∨ c = 9)) with
    | nil => simp
    | cons a as =>
      rw [hd] at this
      simpa using this
  have hlen : (pre ++ (line ++ 10 :: post)).length =
      pre.length + (line.takeWhile (fun c => decide (c = 32 ∨ c = 9))).length +
        ((line.dropWhile (fun c => decide (c = 32 ∨ c = 9))).length + 1 + post.length) := by
    rw [hbuf]
    simp only [List.length_append, List.length_cons]
    omega
  have hskip : skip_spaces_tabs (pre ++ (line ++ 10 :: post))
      (pre ++ (line ++ 10 :: post)).length
      ((pre ++ (line ++ 10 :: post)).length - pre.length) pre.length =
      pre.length + (line.takeWhile (fun c => decide (c = 32 ∨ c = 9))).length := by
    rw [hlen]
    rw [hbuf]
    exact skip_spaces_tabs_run _ _ _ hw hx pre _ (by omega) (by omega)
  unfold is_blank_or_comment_line
  rw [if_neg (by simp)]
  split_ifs with h1
  · rfl
  · simp only [hskip]
    rcases hline with hb | hc
    · have hbyte : byteAt (pre ++ (line ++ 10 :: post))
          (pre.length + (line.takeWhile (fun c => decide (c = 32 ∨ c = 9))).length) = 10 := by
        rw [hbuf, ← List.append_assoc, ← List.length_append, byteAt_append_length, hb]
        rfl
      rw [if_pos (Or.inl ⟨trivial, Or.inl hbyte⟩)]
    · obtain ⟨r, hr⟩ := hc
      have hdrop : (pre ++ (line ++ 10 :: post)).drop
          (pre.length + (line.takeWhile (fun c => decide (c = 32 ∨ c = 9))).length) =
          comment ++ (r ++ 10 :: post) := by
        rw [hbuf, ← List.append_assoc, ← List.length_append, List.drop_left, ← hr,
          List.append_assoc]
      rw [hdrop, if_pos (Or.inr ⟨hcomment, strncmp_of_append comment _⟩)]

/-- A line whose first byte after the leading spaces and tabs is neither a terminator
nor the first byte of the comment prefix is not classified as a line to skip. -/
theorem is_blank_or_comment_line_of_data (pre w rest comment : List Nat) (c : Nat)
    (skip_empty_rows : Bool)
    (hw : ∀ x ∈ w, x = 32 ∨ x = 9) (hc : c ≠ 32 ∧ c ≠ 9 ∧ c ≠ 10 ∧ c ≠ 13)
    (hcc : comment.head? ≠ some c) :
    is_blank_or_comment_line (pre ++ (w ++ c :: rest)) pre.length
      (pre ++ (w ++ c :: rest)).length comment skip_empty_rows = false := by
  have hlen : (pre ++ (w ++ c :: rest)).length = pre.length + w.length + (1 + rest.length) := by
    simp only [List.length_append, List.length_cons]
    omega
  have hskip : skip_spaces_tabs (pre ++ (w ++ c :: rest)) (pre ++ (w ++ c :: rest)).length
      ((pre ++ (w ++ c :: rest)).length - pre.length) pre.length = pre.length + w.length := by
    rw [hlen]
    exact skip_spaces_tabs_run _ _ _ hw (by simp; tauto) pre _ (by omega) (by omega)
  have hfirst : byteAt (pre ++ (w ++ c :: rest)) pre.length ≠ 10 ∧
      byteAt (pre ++ (w ++ c :: rest)) pre.length ≠ 13 := by
    rw [byteAt_append_length]
    cases w with
    | nil => simp; tauto
    | cons a as =>
      have := hw a (List.mem_cons_self _ _)
      simp only [List.cons_append, List.headD_cons]
      omega
  have hbyte : byteAt (pre ++ (w ++ c :: rest)) (pre.length + w.length) = c := by
    rw [← List.append_assoc, ← List.length_append, byteAt_append_length]
    rfl
  have hdrop : (pre ++ (w ++ c :: rest)).drop (pre.length + w.length) = c :: rest := by
    rw [← List.append_assoc, ← List.length_append, List.drop_left]
  unfold is_blank_or_comment_line
  split_ifs with h1 h2
  · rfl
  · tauto
  · simp only [hskip, hbyte, hdrop]
    rw [if_neg]
    rintro (⟨_, h⟩ | ⟨hne, hcmp⟩)
    · omega
    · obtain ⟨a, as, rfl⟩ := List.exists_cons_of_ne_nil hne
      have hac : a ≠ c := by simpa using hcc
      exact strncmp_head_ne (c :: rest) (a :: as) as.length (by simpa using Ne.symm hac) hcmp

/-! ## The first-data-line locator -/

theorem lf_lines_length_ge (ls : List (List Nat)) : ls.length ≤ (lf_lines ls).length := by
  induction ls with
  | nil => simp [lf_lines]
  | cons l ls ih =>
    simp only [lf_lines, List.length_cons, List.length_append]
    omega

/-- The iterations of the loop of `find_first_line` that the skip count drives: each
consumes one LF-terminated line. -/
theorem find_first_line_loop_skip (comment : List Nat) (skip_empty_rows embedded_nl : Bool)
    (quote : Nat) (post : List Nat) (hpost : post ≠ []) :
    ∀ (skipped : List (List Nat)) (pre : List Nat) (fuel : Nat),
      (∀ l ∈ skipped, ∀ x ∈ l,
        x ≠ 13 ∧ x ≠ 10 ∧ x ≠ 0 ∧ (embedded_nl = true → x ≠ quote)) →
      find_first_line_loop (pre ++ (lf_lines skipped ++ post)) comment skip_empty_rows
          embedded_nl quote (fuel + skipped.length) pre.length skipped.length =
        find_first_line_loop (pre ++ (lf_lines skipped ++ post)) comment skip_empty_rows
          embedded_nl quote fuel (pre.length + (lf_lines skipped).length) 0 := by
  intro skipped
  induction skipped with
  | nil =>
    intro pre fuel _
    simp [lf_lines]
  | cons l ls ih =>
    intro pre fuel hlines
    have hl := hlines l (List.mem_cons_self _ _)
    have hrec := ih (pre ++ (l ++ [10])) fuel (fun m hm => hlines m (List.mem_cons_of_mem _ hm))
    have hbuf1 : pre ++ (lf_lines (l :: ls) ++ post) =
        pre ++ (l ++ 10 :: (lf_lines ls ++ post)) := by
      simp [lf_lines]
    have hbuf2 : pre ++ (l ++ 10 :: (lf_lines ls ++ post)) =
        pre ++ (l ++ [10]) ++ (lf_lines ls ++ post) := by
      simp
    have hnext := find_next_newline_line pre l (lf_lines ls ++ post) embedded_nl quote
      (by simp [hpost]) hl
    rw [hbuf1, List.length_cons, ← Nat.add_assoc, find_first_line_loop,
      if_pos (Or.inr (Nat.succ_pos _)), hnext, if_pos (Nat.succ_pos _), hbuf2]
    simp only [Nat.add_sub_cancel]
    rw [show pre.length + l.length + 1 = (pre ++ (l ++ [10])).length by
      simp only [List.length_append, List.length_singleton]; omega, hrec]
    congr 1
    simp only [lf_lines, List.length_append, List.length_cons, List.length_singleton,
      List.length_nil]
    omega

/-- The iterations of the loop of `find_first_line` over blank and comment lines, once
the skip count is used up. -/
theorem find_first_line_loop_blank (comment : List Nat) (embedded_nl : Bool)
    (quote : Nat) (post : List Nat) (hpost : post ≠ []) (hcomment : comment ≠ []) :
    ∀ (blanks : List (List Nat)) (pre : List Nat) (fuel : Nat),
      (∀ l ∈ blanks, (∀ x ∈ l,
        x ≠ 13 ∧ x ≠ 10 ∧ x ≠ 0 ∧ (embedded_nl = true → x ≠ quote)) ∧
        blank_or_comment comment l) →
      find_first_line_loop (pre ++ (lf_lines blanks ++ post)) comment true
          embedded_nl quote (fuel + blanks.length) pre.length 0 =
        find_first_line_loop (pre ++ (lf_lines blanks ++ post)) comment true
          embedded_nl quote fuel (pre.length + (lf_lines blanks).length) 0 := by
  intro blanks
  induction blanks with
  | nil =>
    intro pre fuel _
    simp [lf_lines]
  | cons l ls ih =>
    intro pre fuel hlines
    have hl := hlines l (List.mem_cons_self _ _)
    have hrec := ih (pre ++ (l ++ [10])) fuel (fun m hm => hlines m (List.mem_cons_of_mem _ hm))
    have hbuf1 : pre ++ (lf_lines (l :: ls) ++ post) =
        pre ++ (l ++ 10 :: (lf_lines ls ++ post)) := by
      simp [lf_lines]
    have hbuf2 : pre ++ (l ++ 10 :: (lf_lines ls ++ post)) =
        pre ++ (l ++ [10]) ++ (lf_lines ls ++ post) := by
      simp
    have hpost2 : 0 < (lf_lines ls ++ post).length := by
      have := List.length_pos.mpr hpost
      simp only [List.length_append]
      omega
    have hnext := find_next_newline_line pre l (lf_lines ls ++ post) embedded_nl quote
      (by simp [hpost]) hl.1
    have hblank := is_blank_or_comment_line_of_blank_or_comment pre l (lf_lines ls ++ post)
      comment hcomment hl.2
    have hlen : (pre ++ (l ++ 10 :: (lf_lines ls ++ post))).length =
        pre.length + l.length + 1 + (lf_lines ls ++ post).length := by
      simp only [List.length_append, List.length_cons]
      omega
    have hlt : pre.length < size_minus_one (pre ++ (l ++ 10 :: (lf_lines ls ++ post))).length := by
      rw [size_minus_one_pos _ (by omega), hlen]
      omega
    rw [hbuf1, List.length_cons, ← Nat.add_assoc, find_first_line_loop,
      if_pos (Or.inl ⟨hlt, hblank⟩), hnext, if_neg (Nat.lt_irrefl 0), hbuf2]
    rw [show pre.length + l.length + 1 = (pre ++ (l ++ [10])).length by
      simp only [List.length_append, List.length_singleton]; omega, hrec]
    congr 1
    simp only [lf_lines, List.length_append, List.length_cons, List.length_singleton,
      List.length_nil]
    omega

theorem find_first_line_loop_stop (buf comment : List Nat) (skip_empty_rows embedded_nl : Bool)
    (quote fuel b : Nat)
    (h : is_blank_or_comment_line buf b buf.length comment skip_empty_rows = false) :
    find_first_line_loop buf comment skip_empty_rows embedded_nl quote fuel b 0 = b := by
  cases fuel with
  | zero => rfl
  | succ f =>
    rw [find_first_line_loop, if_neg]
    simp [h]

/-- The first-data-line locator on a buffer without BOM made of LF-terminated lines to
skip by count, LF-terminated blank or comment lines, and a data line; the lines in front
of the data line hold no CR, LF or NUL byte and, with `embedded_nl`, no quote byte. -/
theorem find_first_line_layout_general (skipped blanks : List (List Nat)) (w rest comment : List Nat)
    (c : Nat) (embedded_nl : Bool) (quote : Nat)
    (hbom : skip_bom (lf_lines skipped ++ (lf_lines blanks ++ (w ++ c :: rest))) = 0)
    (hcomment : comment ≠ []) (hc0 : ∀ x ∈ comment, x ≠ 0)
    (hskipped : ∀ l ∈ skipped, ∀ x ∈ l,
      x ≠ 13 ∧ x ≠ 10 ∧ x ≠ 0 ∧ (embedded_nl = true → x ≠ quote))
    (hblanks : ∀ l ∈ blanks, (∀ x ∈ l,
      x ≠ 13 ∧ x ≠ 10 ∧ x ≠ 0 ∧ (embedded_nl = true → x ≠ quote)) ∧
      blank_or_comment comment l)
    (hw : ∀ x ∈ w, x = 32 ∨ x = 9) (hc : c ≠ 32 ∧ c ≠ 9 ∧ c ≠ 10 ∧ c ≠ 13)
    (hcc : comment.head? ≠ some c) :
    find_first_line (lf_lines skipped ++ (lf_lines blanks ++ (w ++ c :: rest)))
        skipped.length comment true embedded_nl quote =
      (lf_lines skipped ++ lf_lines blanks).length := by
  have hlen : (lf_lines skipped ++ (lf_lines blanks ++ (w ++ c :: rest))).length =
      (lf_lines skipped).length + (lf_lines blanks).length + w.length + 1 + rest.length := by
    simp only [List.length_append, List.length_cons]
    omega
  have h1 := lf_lines_length_ge skipped
  have h2 := lf_lines_length_ge blanks
  have hfuel : skipped.length +
      (size_minus_one (lf_lines skipped ++ (lf_lines blanks ++ (w ++ c :: rest))).length - 0) =
      (size_minus_one (lf_lines skipped ++ (lf_lines blanks ++ (w ++ c :: rest))).length -
        blanks.length + blanks.length) + skipped.length := by
    rw [size_minus_one_pos _ (by omega), hlen]
    omega
  have hp1 := find_first_line_loop_skip comment true embedded_nl quote
    (lf_lines blanks ++ (w ++ c :: rest)) (by simp) skipped []
    (size_minus_one (lf_lines skipped ++ (lf_lines blanks ++ (w ++ c :: rest))).length -
      blanks.length + blanks.length) hskipped
  have hp2 := find_first_line_loop_blank comment embedded_nl quote (w ++ c :: rest) (by simp)
    hcomment blanks (lf_lines skipped)
    (size_minus_one (lf_lines skipped ++ (lf_lines blanks ++ (w ++ c :: rest))).length -
      blanks.length) hblanks
  have hp3 := is_blank_or_comment_line_of_data (lf_lines skipped ++ lf_lines blanks) w rest
    comment c true hw hc hcc
  simp only [List.nil_append, List.length_nil, Nat.zero_add] at hp1
  rw [List.append_assoc] at hp3
  rw [find_first_line, c_str_of_no_nul comment hc0, hbom, hfuel, hp1, hp2,
    ← List.length_append]
  exact find_first_line_loop_stop _ _ _ _ _ _ _ hp3

/-- C9 fails when a comment line holds a quote byte (with `embedded_nl`), a NUL byte or
a CR byte: in each of the three buffers one `#` comment line is followed by the data
line `x`, and `find_first_line` does not return the offset of the `x`. -/
theorem find_first_line_comment_content_counterexample :
    (blank_or_comment [35] [35, 34] ∧ lf_lines [[35, 34]] ++ [120] = [35, 34, 10, 120] ∧
      skip_bom [35, 34, 10, 120] = 0 ∧
      find_first_line [35, 34, 10, 120] 0 [35] true true 34 ≠ 3) ∧
    (blank_or_comment [35] [35, 0, 121] ∧
      lf_lines [[35, 0, 121]] ++ [120] = [35, 0, 121, 10, 120] ∧
      find_first_line [35, 0, 121, 10, 120] 0 [35] true false 34 ≠ 4) ∧
    (blank_or_comment [35] [35, 13, 122] ∧
      lf_lines [[35, 13, 122]] ++ [120] = [35, 13, 122, 10, 120] ∧
      find_first_line [35, 13, 122, 10, 120] 0 [35] true false 34 ≠ 4) := by
  decide

/-- C9, amended: on a buffer without BOM that consists of `n` LF-terminated lines free of
CR, LF, NUL and quote bytes, then `m` LF-terminated lines, free of CR, LF and NUL bytes
and with `embedded_nl` of quote bytes, each blank or starting after its leading spaces
and tabs with the non-empty comment prefix, then a data line whose first byte after
the leading spaces and tabs is neither a terminator nor the first byte of the comment
prefix, `find_first_line` with `skip = n` and `skip_empty_rows = true` returns the offset
of the first byte of the data line, for either value of `embedded_nl`. -/
theorem find_first_line_skips_blank_and_comment (skipped blanks : List (List Nat))
    (w rest comment : List Nat) (c : Nat) (embedded_nl : Bool) (quote : Nat)
    (hbom : skip_bom (lf_lines skipped ++ (lf_lines blanks ++ (w ++ c :: rest))) = 0)
    (hcomment : comment ≠ []) (hc0 : ∀ x ∈ comment, x ≠ 0)
    (hskipped : ∀ l ∈ skipped, ∀ x ∈ l, x ≠ 13 ∧ x ≠ 10 ∧ x ≠ 0 ∧ x ≠ quote)
    (hblanks : ∀ l ∈ blanks, (∀ x ∈ l,
      x ≠ 13 ∧ x ≠ 10 ∧ x ≠ 0 ∧ (embedded_nl = true → x ≠ quote)) ∧
      blank_or_comment comment l)
    (hw : ∀ x ∈ w, x = 32 ∨ x = 9) (hc : c ≠ 32 ∧ c ≠ 9 ∧ c ≠ 10 ∧ c ≠ 13)
    (hcc : comment.head? ≠ some c) :
    find_first_line (lf_lines skipped ++ (lf_lines blanks ++ (w ++ c :: rest)))
        skipped.length comment true embedded_nl quote =
      (lf_lines skipped ++ lf_lines blanks).length :=
  find_first_line_layout_general skipped blanks w rest comment c embedded_nl quote hbom
    hcomment hc0
    (fun l hl x hx => ⟨(hskipped l hl x hx).1, (hskipped l hl x hx).2.1,
      (hskipped l hl x hx).2.2.1, fun _ => (hskipped l hl x hx).2.2.2⟩)
    hblanks hw hc hcc

theorem find_first_line_skips_blank_and_comment_witness :
    skip_bom [10, 10, 35, 32, 99, 10, 120, 44, 121, 10] = 0 ∧
    blank_or_comment [35] [35, 32, 99] ∧
    find_first_line [10, 10, 35, 32, 99, 10, 120, 44, 121, 10] 2 [35] true true 34 = 6 :=
  ⟨by decide, by decide,
    find_first_line_skips_blank_and_comment [[], []] [[35, 32, 99]] [] [44, 121, 10] [35] 120
      true 34 (by decide) (by decide) (by decide) (by decide) (by decide) (by decide)
      (by decide) (by decide)⟩

/-- C10, evaluated: on the buffer `a` CR LF `b`, one CRLF-terminated line and the data
line `b` at offset 3, `find_first_line` with `skip = 1`, no comment prefix and
`skip_empty_rows = false` returns 2, the offset of the LF, with `embedded_nl = false`
and 3 with `embedded_nl = true`; with two CRLF-terminated lines and `skip = 2` the fast
path returns the offset 3 of the second line. -/
theorem find_first_line_crlf_fast_path :
    skip_bom [97, 13, 10, 98] = 0 ∧
    find_first_line [97, 13, 10, 98] 1 [] false false 34 = 2 ∧
    find_first_line [97, 13, 10, 98] 1 [] false true 34 = 3 ∧
    find_first_line [97, 13, 10, 98, 13, 10, 99] 2 [] false false 34 = 3 ∧
    find_first_line [97, 13, 10, 98, 13, 10, 99] 2 [] false true 34 = 6 := by
  decide

/-! ## The iteration counts of the locator suffice -/

/-- The quote-aware scan never returns an offset below its position, as long as the
position is not past `end`. -/
theorem scan_from_ge (buf : List Nat) (e quote : Nat) :
    ∀ (n pos : Nat) (in_quote : Bool), e - pos = n →
      min pos e ≤ (scan_from buf e quote pos in_quote).1 := by
  intro n
  induction n using Nat.strong_induction_on with
  | _ n ih =>
    intro pos in_quote hn
    by_cases hp : pos < e
    · have hrec := fun b =>
        ih (e - (pos + strcspn buf pos (c_str [13, 10, quote, 0]) + 1)) (by omega)
          (pos + strcspn buf pos (c_str [13, 10, quote, 0]) + 1) b rfl
      rw [scan_from_step buf e quote pos in_quote hp]
      split_ifs
      · have := hrec in_quote
        omega
      · simp only
        omega
      · simp only
        omega
      · simp only
        omega
      · have := hrec (!in_quote)
        omega
      · have := hrec in_quote
        omega
    · rw [scan_from_exit buf e quote pos in_quote (by omega)]
      simp only
      omega

/-- Inside the buffer, the scanner that `find_first_line` calls never moves backwards. -/
theorem find_next_newline_ge (buf : List Nat) (start : Nat) (comment : List Nat)
    (skip_empty_rows embedded_nl : Bool) (quote : Nat) (hs : start < buf.length) :
    start ≤ (find_next_newline buf start comment skip_empty_rows embedded_nl quote).1 := by
  cases embedded_nl with
  | false => exact (find_next_newline_fast_offset buf start comment skip_empty_rows quote hs).1
  | true =>
    have he : size_minus_one buf.length = buf.length - 1 := size_minus_one_pos _ (by omega)
    have hfnn : find_next_newline buf start comment skip_empty_rows true quote =
        find_next_non_quoted_newline buf start quote := by
      simp only [find_next_newline, ge_iff_le, Nat.not_le.mpr hs, if_false, if_true]
    rw [hfnn, find_next_non_quoted_newline_eq buf start quote (by rw [he]; omega)]
    have := scan_from_ge buf (size_minus_one buf.length) quote _ start false rfl
    rw [he] at this ⊢
    omega

/-- The loop of `find_first_line` on a non-empty buffer gives the same result for every
number of allowed iterations that is at least `skip + (size - 1 - begin)`; the number
that `find_first_line` allows is therefore never used up before the loop ends. -/
theorem find_first_line_loop_fuel (buf comment : List Nat) (skip_empty_rows embedded_nl : Bool)
    (quote : Nat) (hne : buf ≠ []) :
    ∀ (f1 f2 b skip : Nat), skip + (buf.length - 1 - b) ≤ f1 →
      skip + (buf.length - 1 - b) ≤ f2 →
      find_first_line_loop buf comment skip_empty_rows embedded_nl quote f1 b skip =
        find_first_line_loop buf comment skip_empty_rows embedded_nl quote f2 b skip := by
  have hlen : 0 < buf.length := List.length_pos.mpr hne
  have he : size_minus_one buf.length = buf.length - 1 := size_minus_one_pos _ hlen
  have hexit : ∀ (f b skip : Nat), skip + (buf.length - 1 - b) ≤ 0 →
      find_first_line_loop buf comment skip_empty_rows embedded_nl quote f b skip = b := by
    intro f b skip h
    cases f with
    | zero => rfl
    | succ g =>
      rw [find_first_line_loop, if_neg]
      rw [he]
      omega
  intro f1
  induction f1 with
  | zero =>
    intro f2 b skip h1 _
    rw [hexit 0 b skip h1, hexit f2 b skip h1]
  | succ f ih =>
    intro f2 b skip h1 h2
    cases f2 with
    | zero => rw [hexit (f + 1) b skip h2, hexit 0 b skip h2]
    | succ g =>
      simp only [find_first_line_loop]
      split_ifs with hcond hskip
      · apply ih
        · by_cases hb : b < buf.length
          · have := find_next_newline_ge buf b [] false embedded_nl quote hb
            omega
          · have hr : find_next_newline buf b [] false embedded_nl quote =
                (buf.length - 1, NA) := by
              simp [find_next_newline, Nat.le_of_not_lt hb, he]
            rw [hr]
            simp only
            omega
        · by_cases hb : b < buf.length
          · have := find_next_newline_ge buf b [] false embedded_nl quote hb
            omega
          · have hr : find_next_newline buf b [] false embedded_nl quote =
                (buf.length - 1, NA) := by
              simp [find_next_newline, Nat.le_of_not_lt hb, he]
            rw [hr]
            simp only
            omega
      · have hb : b < buf.length - 1 := by
          rcases hcond with ⟨h, _⟩ | h
          · rwa [he] at h
          · exact absurd h hskip
        have := find_next_newline_ge buf b [] false embedded_nl quote (by omega)
        apply ih <;> omega
      · rfl

/-! ## The whitespace trimmer -/

theorem trim_begin_stop (buf : List Nat) (e fuel b : Nat)
    (h : b = e ∨ is_space buf b = false) : trim_begin buf e fuel b = b := by
  cases fuel with
  | zero => rfl
  | succ f =>
    rw [trim_begin, if_neg]
    rcases h with h | h
    · simp [h]
    · simp [h]

theorem trim_end_stop (buf : List Nat) (b fuel e : Nat)
    (h : e = b ∨ is_space buf (e - 1) = false) : trim_end buf b fuel e = e := by
  cases fuel with
  | zero => rfl
  | succ f =>
    rw [trim_end, if_neg]
    rcases h with h | h
    · simp [h]
    · simp [h]

/-- What the first loop of `trim_whitespace` reaches when it may run `end - begin`
times or more. -/
theorem trim_begin_spec (buf : List Nat) (e : Nat) :
    ∀ (fuel b : Nat), b ≤ e → e - b ≤ fuel →
      b ≤ trim_begin buf e fuel b ∧ trim_begin buf e fuel b ≤ e ∧
      (∀ i, b ≤ i → i < trim_begin buf e fuel b → is_space buf i = true) ∧
      (trim_begin buf e fuel b = e ∨ is_space buf (trim_begin buf e fuel b) = false) := by
  intro fuel
  induction fuel with
  | zero =>
    intro b hbe hf
    have : b = e := by omega
    simp only [trim_begin]
    exact ⟨le_rfl, hbe, fun i h1 h2 => by omega, Or.inl this⟩
  | succ f ih =>
    intro b hbe hf
    simp only [trim_begin]
    split_ifs with hc
    · obtain ⟨h1, h2, h3, h4⟩ := ih (b + 1) (by omega) (by omega)
      refine ⟨by omega, h2, ?_, h4⟩
      intro i hi1 hi2
      rcases Nat.eq_or_lt_of_le hi1 with heq | hlt
      · rw [← heq]
        exact hc.2
      · exact h3 i hlt hi2
    · refine ⟨le_rfl, hbe, fun i h1 h2 => by omega, ?_⟩
      by_cases hb : b = e
      · exact Or.inl hb
      · right
        simpa [hb] using hc

/-- What the second loop of `trim_whitespace` reaches when it may run `end - begin`
times or more. -/
theorem trim_end_spec (buf : List Nat) (b : Nat) :
    ∀ (fuel e : Nat), b ≤ e → e - b ≤ fuel →
      b ≤ trim_end buf b fuel e ∧ trim_end buf b fuel e ≤ e ∧
      (∀ i, trim_end buf b fuel e ≤ i → i < e → is_space buf i = true) ∧
      (trim_end buf b fuel e = b ∨ is_space buf (trim_end buf b fuel e - 1) = false) := by
  intro fuel
  induction fuel with
  | zero =>
    intro e hbe hf
    have : e = b := by omega
    simp only [trim_end]
    exact ⟨hbe, le_rfl, fun i h1 h2 => by omega, Or.inl this⟩
  | succ f ih =>
    intro e hbe hf
    simp only [trim_end]
    split_ifs with hc
    · obtain ⟨h1, h2, h3, h4⟩ := ih (e - 1) (by omega) (by omega)
      refine ⟨h1, by omega, ?_, h4⟩
      intro i hi1 hi2
      by_cases hlast : i = e - 1
      · rw [hlast]
        exact hc.2
      · exact h3 i hi1 (by omega)
    · refine ⟨hbe, le_rfl, fun i h1 h2 => by omega, ?_⟩
      by_cases hb : e = b
      · exact Or.inl hb
      · right
        simpa [hb] using hc

/-- C16: `trim_whitespace` is idempotent: applied to the span it produced from a span
with `begin ≤ end`, it returns that span unchanged. -/
theorem trim_whitespace_idempotent (buf : List Nat) (b e : Nat) (h : b ≤ e) :
    trim_whitespace buf (trim_whitespace buf b e).1 (trim_whitespace buf b e).2 =
      trim_whitespace buf b e := by
  obtain ⟨h1, h2, _, h4⟩ := trim_begin_spec buf e (e - b) b h le_rfl
  obtain ⟨g1, g2, _, g4⟩ := trim_end_spec buf (trim_begin buf e (e - b) b)
    (e - trim_begin buf e (e - b) b) e h2 le_rfl
  have hb : trim_begin buf
      (trim_end buf (trim_begin buf e (e - b) b) (e - trim_begin buf e (e - b) b) e)
      (trim_end buf (trim_begin buf e (e - b) b) (e - trim_begin buf e (e - b) b) e -
        trim_begin buf e (e - b) b)
      (trim_begin buf e (e - b) b) = trim_begin buf e (e - b) b := by
    apply trim_begin_stop
    rcases h4 with h4 | h4
    · left
      omega
    · exact Or.inr h4
  simp only [trim_whitespace]
  rw [hb, trim_end_stop buf _ _ _ g4]

theorem trim_whitespace_idempotent_witness :
    0 ≤ 7 ∧
    trim_whitespace [32, 9, 97, 32, 98, 13, 0] (trim_whitespace [32, 9, 97, 32, 98, 13, 0] 0 7).1
        (trim_whitespace [32, 9, 97, 32, 98, 13, 0] 0 7).2 =
      trim_whitespace [32, 9, 97, 32, 98, 13, 0] 0 7 :=
  ⟨by decide, trim_whitespace_idempotent [32, 9, 97, 32, 98, 13, 0] 0 7 (by decide)⟩

/-- C17: for a span with `begin ≤ end`, `trim_whitespace` yields `(begin', end')` with
`begin ≤ begin' ≤ end' ≤ end`; every byte in `[begin, begin')` and in `[end', end)` is
a space, tab, NUL or CR; when `begin' < end'` neither the byte at `begin'` nor the byte
at `end' - 1` is one of these; and `begin' = end'` exactly when every byte of the
original span is one of these. -/
theorem trim_whitespace_spec (buf : List Nat) (b e : Nat) (h : b ≤ e) :
    b ≤ (trim_whitespace buf b e).1 ∧
    (trim_whitespace buf b e).1 ≤ (trim_whitespace buf b e).2 ∧
    (trim_whitespace buf b e).2 ≤ e ∧
    (∀ i, b ≤ i → i < (trim_whitespace buf b e).1 →
      byteAt buf i = 32 ∨ byteAt buf i = 9 ∨ byteAt buf i = 0 ∨ byteAt buf i = 13) ∧
    (∀ i, (trim_whitespace buf b e).2 ≤ i → i < e →
      byteAt buf i = 32 ∨ byteAt buf i = 9 ∨ byteAt buf i = 0 ∨ byteAt buf i = 13) ∧
    ((trim_whitespace buf b e).1 < (trim_whitespace buf b e).2 →
      ¬ (byteAt buf (trim_whitespace buf b e).1 = 32 ∨
          byteAt buf (trim_whitespace buf b e).1 = 9 ∨
          byteAt buf (trim_whitespace buf b e).1 = 0 ∨
          byteAt buf (trim_whitespace buf b e).1 = 13) ∧
      ¬ (byteAt buf ((trim_whitespace buf b e).2 - 1) = 32 ∨
          byteAt buf ((trim_whitespace buf b e).2 - 1) = 9 ∨
          byteAt buf ((trim_whitespace buf b e).2 - 1) = 0 ∨
          byteAt buf ((trim_whitespace buf b e).2 - 1) = 13)) ∧
    ((trim_whitespace buf b e).1 = (trim_whitespace buf b e).2 ↔
      ∀ i, b ≤ i → i < e →
        byteAt buf i = 32 ∨ byteAt buf i = 9 ∨ byteAt buf i = 0 ∨ byteAt buf i = 13) := by
  obtain ⟨h1, h2, h3, h4⟩ := trim_begin_spec buf e (e - b) b h le_rfl
  obtain ⟨g1, g2, g3, g4⟩ := trim_end_spec buf (trim_begin buf e (e - b) b)
    (e - trim_begin buf e (e - b) b) e h2 le_rfl
  have hsp : ∀ i, is_space buf i = true ↔
      (byteAt buf i = 32 ∨ byteAt buf i = 9 ∨ byteAt buf i = 0 ∨ byteAt buf i = 13) := by
    intro i
    simp [is_space]
  have hnsp : ∀ i, is_space buf i = false ↔
      ¬ (byteAt buf i = 32 ∨ byteAt buf i = 9 ∨ byteAt buf i = 0 ∨ byteAt buf i = 13) := by
    intro i
    rw [← hsp]
    simp
  simp only [trim_whitespace]
  refine ⟨h1, g1, g2, fun i hi1 hi2 => (hsp i).mp (h3 i hi1 hi2),
    fun i hi1 hi2 => (hsp i).mp (g3 i hi1 hi2), ?_, ?_⟩
  · intro hlt
    constructor
    · rcases h4 with h4 | h4
      · omega
      · exact (hnsp _).mp h4
    · rcases g4 with g4 | g4
      · omega
      · exact (hnsp _).mp g4
  · constructor
    · intro heq i hi1 hi2
      rw [← hsp]
      by_cases hi : i < trim_begin buf e (e - b) b
      · exact h3 i hi1 hi
      · exact g3 i (by omega) hi2
    · intro hall
      have hbe : trim_begin buf e (e - b) b = e := by
        rcases h4 with h4 | h4
        · exact h4
        · by_contra hne
          have := (hsp _).mpr (hall _ h1 (by omega))
          rw [h4] at this
          exact absurd this (by simp)
      omega

theorem trim_whitespace_spec_witness :
    0 ≤ 7 ∧ (trim_whitespace [32, 9, 97, 32, 98, 13, 0] 0 7).1 ≤
      (trim_whitespace [32, 9, 97, 32, 98, 13, 0] 0 7).2 :=
  ⟨by decide, (trim_whitespace_spec [32, 9, 97, 32, 98, 13, 0] 0 7 (by decide)).2.1⟩

/-! ## The line-ending check -/

/-- C20: `has_expected_line_ending(nl, v)` is true exactly when `v` is LF, or `nl` is
`CR` and `v` is CR. -/
theorem has_expected_line_ending_spec (nl : newline_type) (v : Nat) :
    has_expected_line_ending nl v = true ↔ (v = 10 ∨ (nl = CR ∧ v = 13)) := by
  unfold has_expected_line_ending
  split_ifs with h
  · simp [h]
  · simp only [decide_eq_true_eq]
    tauto

/-! ## The line classifier and the comment test on arbitrary spans -/

/-- The whitespace loop of `is_blank_or_comment_line` stops at the first index `k` of
the span that holds neither a space nor a tab, or at `end` when there is none. -/
theorem skip_spaces_tabs_index (buf : List Nat) (e k : Nat) (hke : k ≤ e)
    (hstop : k < e → ¬ (byteAt buf k = 32 ∨ byteAt buf k = 9)) :
    ∀ (fuel b : Nat), b ≤ k → k - b ≤ fuel →
      (∀ i, b ≤ i → i < k → byteAt buf i = 32 ∨ byteAt buf i = 9) →
      skip_spaces_tabs buf e fuel b = k := by
  intro fuel
  induction fuel with
  | zero =>
    intro b hbk hf _
    simp only [skip_spaces_tabs]
    omega
  | succ f ih =>
    intro b hbk hf hws
    simp only [skip_spaces_tabs]
    rcases Nat.eq_or_lt_of_le hbk with heq | hlt
    · subst heq
      rw [if_neg]
      rintro ⟨h1, h2⟩
      exact hstop h1 h2
    · rw [if_pos ⟨by omega, hws b le_rfl hlt⟩]
      exact ih (b + 1) hlt (by omega) (fun i h1 h2 => hws i (by omega) h2)

theorem strncmp_symm (n : Nat) : ∀ (a b : List Nat), strncmp a b n = 0 ↔ strncmp b a n = 0 := by
  induction n with
  | zero =>
    intro a b
    simp [strncmp]
  | succ m ih =>
    intro a b
    simp only [strncmp]
    by_cases h : a.headD 0 = b.headD 0
    · simp only [h, ne_eq, not_true_eq_false, if_false]
      split_ifs
      · exact Iff.rfl
      · exact ih a.tail b.tail
    · rw [if_pos h, if_pos (Ne.symm h)]
      omega

/-- The result of `is_blank_or_comment_line` as a condition on the byte at `begin`, the
byte the whitespace loop stops at, and the comparison with the comment prefix there. -/
theorem is_blank_or_comment_line_iff (buf : List Nat) (b e : Nat) (comment : List Nat)
    (skip_empty_rows : Bool) :
    is_blank_or_comment_line buf b e comment skip_empty_rows = true ↔
      ¬ (skip_empty_rows = false ∧ comment = []) ∧
      ((skip_empty_rows = true ∧ (byteAt buf b = 10 ∨ byteAt buf b = 13)) ∨
        (skip_empty_rows = true ∧
          (byteAt buf (skip_spaces_tabs buf e (e - b) b) = 10 ∨
            byteAt buf (skip_spaces_tabs buf e (e - b) b) = 13)) ∨
        (comment ≠ [] ∧
          strncmp (buf.drop (skip_spaces_tabs buf e (e - b) b)) comment comment.length = 0)) := by
  unfold is_blank_or_comment_line
  dsimp only
  split_ifs with h1 h2 h3
  · simp [h1]
  · simp only [true_iff]
    exact ⟨h1, Or.inl h2⟩
  · simp only [true_iff]
    refine ⟨h1, Or.inr ?_⟩
    tauto
  · simp only [Bool.false_eq_true, false_iff]
    tauto

/-- For a comment string without NUL, `strncmp(a, comment, comment.size()) == 0` holds
exactly when the bytes at `a` begin with the comment string. -/
theorem strncmp_eq_zero_iff (s : List Nat) (hs : ∀ x ∈ s, x ≠ 0) :
    ∀ (a : List Nat), strncmp a s s.length = 0 ↔ s <+: a := by
  induction s with
  | nil =>
    intro a
    simp [strncmp]
  | cons x xs ih =>
    intro a
    have hx : x ≠ 0 := hs x (List.mem_cons_self _ _)
    have hrec := ih (fun y hy => hs y (List.mem_cons_of_mem _ hy))
    simp only [List.length_cons, strncmp, List.headD_cons, List.tail_cons]
    cases a with
    | nil =>
      simp only [List.headD_nil, List.prefix_nil]
      rw [if_pos (Ne.symm hx)]
      constructor
      · intro h0
        omega
      · intro h0
        exact absurd h0 (by simp)
    | cons y ys =>
      simp only [List.headD_cons, List.tail_cons, List.cons_prefix_cons]
      by_cases hxy : y = x
      · subst hxy
        rw [if_neg (by simp), if_neg hx, hrec ys]
        simp
      · rw [if_pos hxy]
        constructor
        · intro h0
          omega
        · rintro ⟨h0, _⟩
          exact absurd h0.symm hxy

/-- C12: with an empty comment prefix, on a line span whose first byte other than space
and tab lies at index `k`, `is_blank_or_comment_line` returns true exactly when
`skip_empty_rows` is set and the byte at `k` is CR or LF. -/
theorem is_blank_or_comment_line_empty_comment (buf : List Nat) (b e k : Nat)
    (skip_empty_rows : Bool) (hbk : b ≤ k) (hke : k < e)
    (hws : ∀ i, b ≤ i → i < k → byteAt buf i = 32 ∨ byteAt buf i = 9)
    (hk : ¬ (byteAt buf k = 32 ∨ byteAt buf k = 9)) :
    is_blank_or_comment_line buf b e [] skip_empty_rows = true ↔
      (skip_empty_rows = true ∧ (byteAt buf k = 10 ∨ byteAt buf k = 13)) := by
  have hskip : skip_spaces_tabs buf e (e - b) b = k :=
    skip_spaces_tabs_index buf e k (by omega) (fun _ => hk) (e - b) b hbk (by omega) hws
  rw [is_blank_or_comment_line_iff, hskip]
  constructor
  · rintro ⟨h0, h1 | h1 | h1⟩
    · have hbk' : b = k := by
        rcases Nat.eq_or_lt_of_le hbk with heq | hlt
        · exact heq
        · have := hws b le_rfl hlt
          omega
      rw [← hbk']
      exact h1
    · exact h1
    · exact absurd rfl h1.1
  · rintro ⟨h0, h1⟩
    refine ⟨?_, Or.inr (Or.inl ⟨h0, h1⟩)⟩
    rw [h0]
    simp

theorem is_blank_or_comment_line_empty_comment_witness :
    (∀ i, 0 ≤ i → i < 4 →
      byteAt [32, 32, 32, 9, 13, 10] i = 32 ∨ byteAt [32, 32, 32, 9, 13, 10] i = 9) ∧
    is_blank_or_comment_line [32, 32, 32, 9, 13, 10] 0 6 [] true = true :=
  ⟨by decide,
    (is_blank_or_comment_line_empty_comment [32, 32, 32, 9, 13, 10] 0 6 4 true (by decide)
      (by decide) (by decide) (by decide)).mpr ⟨rfl, by decide⟩⟩

/-- C13: with `skip_empty_rows = false` and a non-empty comment prefix without NUL, on
a line span whose remainder after the leading spaces and tabs starts at index `k` and
is at least as long as the prefix, `is_blank_or_comment_line` returns true exactly when
that remainder begins with the prefix. -/
theorem is_blank_or_comment_line_comment (buf : List Nat) (b e k : Nat) (comment : List Nat)
    (hcomment : comment ≠ []) (hnul : ∀ x ∈ comment, x ≠ 0) (hbk : b ≤ k) (hke : k ≤ e)
    (hws : ∀ i, b ≤ i → i < k → byteAt buf i = 32 ∨ byteAt buf i = 9)
    (hk : k < e → ¬ (byteAt buf k = 32 ∨ byteAt buf k = 9))
    (hlen : k + comment.length ≤ e) :
    is_blank_or_comment_line buf b e comment false = true ↔ comment <+: slice buf k e := by
  have hskip : skip_spaces_tabs buf e (e - b) b = k :=
    skip_spaces_tabs_index buf e k hke hk (e - b) b hbk (by omega) hws
  have hpre : comment <+: slice buf k e ↔ comment <+: buf.drop k := by
    unfold slice
    rw [List.prefix_take_iff]
    constructor
    · exact fun h => h.1
    · exact fun h => ⟨h, by omega⟩
  rw [is_blank_or_comment_line_iff, hskip, hpre, strncmp_eq_zero_iff comment hnul]
  simp [hcomment]

theorem is_blank_or_comment_line_comment_witness :
    ([35] <+: slice [32, 35, 32, 110, 10] 1 5 ∧
      is_blank_or_comment_line [32, 35, 32, 110, 10] 0 5 [35] false = true) ∧
    (¬ [35] <+: slice [97, 35, 98, 10] 0 4 ∧
      ¬ is_blank_or_comment_line [97, 35, 98, 10] 0 4 [35] false = true) :=
  ⟨⟨by decide,
      (is_blank_or_comment_line_comment [32, 35, 32, 110, 10] 0 5 1 [35] (by decide)
        (by decide) (by decide) (by decide) (by decide) (by decide) (by decide)).mpr
        (by decide)⟩,
    ⟨by decide, fun h =>
      absurd ((is_blank_or_comment_line_comment [97, 35, 98, 10] 0 4 0 [35] (by decide)
        (by decide) (by decide) (by decide) (by decide) (by decide) (by decide)).mp h)
        (by decide)⟩⟩

/-- When the span runs to the end of the buffer and fewer bytes than the comment prefix
remain after the leading spaces and tabs, the comparison runs into the NUL after the
buffer and `is_blank_or_comment_line` returns false. -/
theorem is_blank_or_comment_line_short_at_buffer_end (buf : List Nat) (b k : Nat)
    (comment : List Nat) (hnul : ∀ x ∈ comment, x ≠ 0) (hbk : b ≤ k)
    (hke : k ≤ buf.length)
    (hws : ∀ i, b ≤ i → i < k → byteAt buf i = 32 ∨ byteAt buf i = 9)
    (hk : k < buf.length → ¬ (byteAt buf k = 32 ∨ byteAt buf k = 9))
    (hlen : buf.length - k < comment.length) :
    is_blank_or_comment_line buf b buf.length comment false = false := by
  have hskip : skip_spaces_tabs buf buf.length (buf.length - b) b = k :=
    skip_spaces_tabs_index buf buf.length k hke hk (buf.length - b) b hbk (by omega) hws
  have hno : ¬ comment <+: buf.drop k := by
    intro h
    have := h.length_le
    simp only [List.length_drop] at this
    omega
  rw [← Bool.not_eq_true, is_blank_or_comment_line_iff, hskip,
    strncmp_eq_zero_iff comment hnul]
  simp [hno]

/-- C14, evaluated: on the buffer space `#` with the span `[0, 1)`, which holds one
space and so fewer bytes than the prefix `#` after its leading spaces,
`is_blank_or_comment_line` with `skip_empty_rows = false` returns true, and with `x` in
place of the `#` behind the span it returns false: the byte at `end` decides; the same
on an empty span. On the empty remainder `[1, 1)` of the span `is_comment` and `matches`
return false. -/
theorem is_blank_or_comment_line_compares_past_end :
    is_blank_or_comment_line [32, 35] 0 1 [35] false = true ∧
    is_blank_or_comment_line [32, 120] 0 1 [35] false = false ∧
    is_blank_or_comment_line [35] 0 0 [35] false = true ∧
    is_comment [32, 35] 1 1 [35] = false ∧
    matches_span [32, 35] 1 1 [35] = false := by
  decide

/-- The result of `is_comment` on a span with `begin ≤ end` and a comment prefix
without NUL: the span has to be strictly longer than the prefix. -/
theorem is_comment_spec (buf : List Nat) (b e : Nat) (comment : List Nat) (hbe : b ≤ e)
    (hnul : ∀ x ∈ comment, x ≠ 0) :
    is_comment buf b e comment = true ↔
      (comment ≠ [] ∧ comment.length < e - b ∧ comment <+: buf.drop b) := by
  unfold is_comment ptrdiff_as_size
  rw [if_pos hbe]
  split_ifs with h
  · constructor
    · intro h0
      exact absurd h0 (by simp)
    · rintro ⟨h1, h2, _⟩
      rcases h with h | h
      · exact absurd h h1
      · omega
  · rw [decide_eq_true_eq, strncmp_symm, strncmp_eq_zero_iff comment hnul]
    simp only [not_or, ge_iff_le, not_le] at h
    tauto

/-- C15, evaluated: on the span `#`, which is exactly the prefix `#`, `is_comment`
returns false, where `matches` returns true; on the longer span `#` space it returns
true. -/
theorem is_comment_span_equal_to_comment :
    is_comment [35] 0 1 [35] = false ∧
    matches_span [35] 0 1 [35] = true ∧
    is_comment [35, 32] 0 2 [35] = true := by
  decide

/-! ## Parity and bounds of the quote-aware scanner -/

theorem strcspn_query4_no_terminator (buf : List Nat) (quote pos i : Nat)
    (h1 : pos ≤ i) (h2 : i < pos + strcspn buf pos (c_str [13, 10, quote, 0])) :
    ¬ (byteAt buf i = 10 ∨ byteAt buf i = 13) := by
  have h := (strcspn_before buf pos _ i h1 h2).2
  rw [mem_query4] at h
  tauto

/-- Whenever the quote-aware scan from `pos` with the flag `in_quote` reports a
terminator, the terminator is unquoted and every terminator passed before it is quoted,
the quoting counted from the flag by the parity of the quote bytes. -/
theorem scan_from_parity (buf : List Nat) (e quote : Nat) (hq0 : quote ≠ 0)
    (hq10 : quote ≠ 10) (hq13 : quote ≠ 13) :
    ∀ (n pos : Nat) (in_quote : Bool), e - pos = n →
      (scan_from buf e quote pos in_quote).2 ≠ NA →
      pos ≤ terminator_start (scan_from buf e quote pos in_quote) ∧
      (byteAt buf (terminator_start (scan_from buf e quote pos in_quote)) = 10 ∨
        byteAt buf (terminator_start (scan_from buf e quote pos in_quote)) = 13) ∧
      xor in_quote (odd_quotes buf quote pos
        (terminator_start (scan_from buf e quote pos in_quote))) = false ∧
      (∀ i, pos ≤ i → i < terminator_start (scan_from buf e quote pos in_quote) →
        (byteAt buf i = 10 ∨ byteAt buf i = 13) →
        xor in_quote (odd_quotes buf quote pos i) = true) := by
  intro n
  induction n using Nat.strong_induction_on with
  | _ n ih =>
    intro pos in_quote hn
    by_cases hp : pos < e
    · have habs : odd_quotes buf quote pos
          (pos + strcspn buf pos (c_str [13, 10, quote, 0])) = false :=
        odd_quotes_of_absent buf quote pos _
          (fun j h1 h2 _ => strcspn_query4_no_quote buf quote pos j hq0 h1 h2)
      have hnoterm := strcspn_query4_no_terminator buf quote pos
      have hrec := fun b =>
        ih (e - (pos + strcspn buf pos (c_str [13, 10, quote, 0]) + 1)) (by omega)
          (pos + strcspn buf pos (c_str [13, 10, quote, 0]) + 1) b rfl
      have hhere : ∀ (kind : newline_type) (off : Nat),
          terminator_start (off, kind) = pos + strcspn buf pos (c_str [13, 10, quote, 0]) →
          in_quote = false →
          (byteAt buf (pos + strcspn buf pos (c_str [13, 10, quote, 0])) = 10 ∨
            byteAt buf (pos + strcspn buf pos (c_str [13, 10, quote, 0])) = 13) →
          pos ≤ terminator_start (off, kind) ∧
          (byteAt buf (terminator_start (off, kind)) = 10 ∨
            byteAt buf (terminator_start (off, kind)) = 13) ∧
          xor in_quote (odd_quotes buf quote pos (terminator_start (off, kind))) = false ∧
          (∀ i, pos ≤ i → i < terminator_start (off, kind) →
            (byteAt buf i = 10 ∨ byteAt buf i = 13) →
            xor in_quote (odd_quotes buf quote pos i) = true) := by
        intro kind off ht hin hc
        rw [ht, habs, hin]
        exact ⟨by omega, hc, rfl, fun i h1 h2 h3 => absurd h3 (hnoterm i h1 h2)⟩
      have hlater : ∀ (b : Bool),
          (b = xor in_quote
            (decide (byteAt buf (pos + strcspn buf pos (c_str [13, 10, quote, 0])) = quote))) →
          ((byteAt buf (pos + strcspn buf pos (c_str [13, 10, quote, 0])) = 10 ∨
            byteAt buf (pos + strcspn buf pos (c_str [13, 10, quote, 0])) = 13) →
            in_quote = true) →
          (scan_from buf e quote
            (pos + strcspn buf pos (c_str [13, 10, quote, 0]) + 1) b).2 ≠ NA →
          pos ≤ terminator_start (scan_from buf e quote
            (pos + strcspn buf pos (c_str [13, 10, quote, 0]) + 1) b) ∧
          (byteAt buf (terminator_start (scan_from buf e quote
            (pos + strcspn buf pos (c_str [13, 10, quote, 0]) + 1) b)) = 10 ∨
            byteAt buf (terminator_start (scan_from buf e quote
              (pos + strcspn buf pos (c_str [13, 10, quote, 0]) + 1) b)) = 13) ∧
          xor in_quote (odd_quotes buf quote pos (terminator_start (scan_from buf e quote
            (pos + strcspn buf pos (c_str [13, 10, quote, 0]) + 1) b))) = false ∧
          (∀ i, pos ≤ i → i < terminator_start (scan_from buf e quote
              (pos + strcspn buf pos (c_str [13, 10, quote, 0]) + 1) b) →
            (byteAt buf i = 10 ∨ byteAt buf i = 13) →
            xor in_quote (odd_quotes buf quote pos i) = true) := by
        intro b hb hquoted hna
        obtain ⟨g1, g2, g3, g4⟩ := hrec b hna
        refine ⟨by omega, g2, ?_, ?_⟩
        · rw [odd_quotes_jump buf quote pos _ hq0 g1, ← Bool.xor_assoc, ← hb]
          exact g3
        · intro i h1 h2 h3
          rcases Nat.lt_trichotomy i (pos + strcspn buf pos (c_str [13, 10, quote, 0]))
            with hlt | heq | hgt
          · exact absurd h3 (hnoterm i h1 hlt)
          · rw [heq, habs, hquoted (heq ▸ h3)]
            rfl
          · rw [odd_quotes_jump buf quote pos i hq0 hgt, ← Bool.xor_assoc, ← hb]
            exact g4 i hgt h2 h3
      rw [scan_from_step buf e quote pos in_quote hp]
      by_cases hc : byteAt buf (pos + strcspn buf pos (c_str [13, 10, quote, 0])) = 10 ∨
          byteAt buf (pos + strcspn buf pos (c_str [13, 10, quote, 0])) = 13
      · have hcq : byteAt buf (pos + strcspn buf pos (c_str [13, 10, quote, 0])) ≠ quote := by
          rcases hc with h | h <;> rw [h] <;> [exact Ne.symm hq10; exact Ne.symm hq13]
        rw [if_pos hc]
        by_cases hin : in_quote = true
        · rw [if_pos hin]
          exact hlater in_quote (by simp [hcq]) (fun _ => hin)
        · rw [if_neg hin]
          have hin' : in_quote = false := by simpa using hin
          split_ifs with h10 hcrlf
          · exact fun _ => hhere LF _ rfl hin' hc
          · exact fun _ => hhere CRLF _ (by simp [terminator_start]) hin' hc
          · exact fun _ => hhere CR _ (by simp [terminator_start]) hin' hc
      · rw [if_neg hc]
        apply hlater
        · by_cases hcq : byteAt buf (pos + strcspn buf pos (c_str [13, 10, quote, 0])) = quote
          · simp [hcq]
          · simp [hcq]
        · exact fun h => absurd h hc
    · rw [scan_from_exit buf e quote pos in_quote (by omega)]
      intro h
      exact absurd rfl h

/-- C18: whenever `find_next_non_quoted_newline` returns a kind other than `NA`, with
`t` the index where the reported terminator begins, the number of quote bytes in
`[start, t)` is even and every CR or LF byte at an index in `[start, t)` is preceded by
an odd number of quote bytes counted from `start`. -/
theorem find_next_non_quoted_newline_parity (buf : List Nat) (start quote : Nat)
    (hs : start < buf.length) (hq13 : quote ≠ 13) (hq10 : quote ≠ 10) (hq0 : quote ≠ 0)
    (hkind : (find_next_non_quoted_newline buf start quote).2 ≠ NA) :
    odd_quotes buf quote start
      (terminator_start (find_next_non_quoted_newline buf start quote)) = false ∧
    (∀ i, start ≤ i →
      i < terminator_start (find_next_non_quoted_newline buf start quote) →
      (byteAt buf i = 10 ∨ byteAt buf i = 13) → odd_quotes buf quote start i = true) := by
  have he : size_minus_one buf.length = buf.length - 1 := size_minus_one_pos _ (by omega)
  have heq := find_next_non_quoted_newline_eq buf start quote (by rw [he]; omega)
  rw [heq] at hkind ⊢
  obtain ⟨_, _, g3, g4⟩ := scan_from_parity buf (size_minus_one buf.length) quote hq0 hq10 hq13
    _ start false rfl hkind
  refine ⟨by simpa using g3, ?_⟩
  intro i h1 h2 h3
  simpa using g4 i h1 h2 h3

theorem find_next_non_quoted_newline_parity_witness :
    (find_next_non_quoted_newline [34, 34, 97, 34, 13, 10, 34, 13, 10, 98] 0 34).2 ≠ NA ∧
    terminator_start
      (find_next_non_quoted_newline [34, 34, 97, 34, 13, 10, 34, 13, 10, 98] 0 34) = 7 ∧
    odd_quotes [34, 34, 97, 34, 13, 10, 34, 13, 10, 98] 34 0
      (terminator_start
        (find_next_non_quoted_newline [34, 34, 97, 34, 13, 10, 34, 13, 10, 98] 0 34)) = false :=
  ⟨by decide, by decide,
    (find_next_non_quoted_newline_parity [34, 34, 97, 34, 13, 10, 34, 13, 10, 98] 0 34
      (by decide) (by decide) (by decide) (by decide) (by decide)).1⟩

/-- The quote-aware scan never returns an offset above `end` when the byte behind `end`
is NUL. -/
theorem scan_from_le_to_nul (mem : List Nat) (e quote : Nat)
    (hnul : byteAt mem (e + 1) = 0) :
    ∀ (n pos : Nat) (in_quote : Bool), e - pos = n →
      (scan_from mem e quote pos in_quote).1 ≤ e := by
  intro n
  induction n using Nat.strong_induction_on with
  | _ n ih =>
    intro pos in_quote hn
    by_cases hp : pos < e
    · have hrec := fun b =>
        ih (e - (pos + strcspn mem pos (c_str [13, 10, quote, 0]) + 1)) (by omega)
          (pos + strcspn mem pos (c_str [13, 10, quote, 0]) + 1) b rfl
      have hstop : pos + strcspn mem pos (c_str [13, 10, quote, 0]) ≤ e + 1 := by
        by_contra hgt
        exact (strcspn_before mem pos (c_str [13, 10, quote, 0]) (e + 1) (by omega)
          (by omega)).1 hnul
      have hin : (byteAt mem (pos + strcspn mem pos (c_str [13, 10, quote, 0])) = 10 ∨
          byteAt mem (pos + strcspn mem pos (c_str [13, 10, quote, 0])) = 13) →
          pos + strcspn mem pos (c_str [13, 10, quote, 0]) ≤ e := by
        intro hc
        rcases Nat.eq_or_lt_of_le hstop with heq | hlt
        · rw [heq, hnul] at hc
          omega
        · omega
      rw [scan_from_step mem e quote pos in_quote hp]
      split_ifs with hc h1 h2 h3
      · exact hrec in_quote
      · exact hin hc
      · simp only [is_crlf, decide_eq_true_eq] at h3
        simp only
        omega
      · exact hin hc
      · exact hrec (!in_quote)
      · exact hrec in_quote
    · rw [scan_from_exit mem e quote pos in_quote (by omega)]

/-- C19 fails when the byte behind the buffer is not NUL: on the buffer `abc` followed
in memory by `d`, `e` and LF, `find_next_non_quoted_newline` from 0 returns the offset
5, above `length - 1 = 2`. -/
theorem find_next_non_quoted_newline_bounds_counterexample :
    find_next_non_quoted_newline_in [97, 98, 99, 100, 101, 10] 3 0 34 = (5, LF) ∧
    ¬ ((find_next_non_quoted_newline_in [97, 98, 99, 100, 101, 10] 3 0 34).1 ≤ 3 - 1) := by
  decide

/-- C19, amended: on a non-empty buffer the offset returned by
`find_next_non_quoted_newline` is at least `start` when `start ≤ length - 1`; the
result is `(length - 1, NA)` when `start > length - 1`; and the offset is at most
`length - 1` whenever `start > length - 1` or the buffer is followed in memory by a NUL
byte. -/
theorem find_next_non_quoted_newline_bounds (mem : List Nat) (size start quote : Nat)
    (hsize : 0 < size) :
    (start ≤ size - 1 → start ≤ (find_next_non_quoted_newline_in mem size start quote).1) ∧
    (start > size - 1 →
      find_next_non_quoted_newline_in mem size start quote = (size - 1, NA)) ∧
    ((start > size - 1 ∨ byteAt mem size = 0) →
      (find_next_non_quoted_newline_in mem size start quote).1 ≤ size - 1) := by
  have he : size_minus_one size = size - 1 := size_minus_one_pos _ hsize
  have hpast : start > size - 1 →
      find_next_non_quoted_newline_in mem size start quote = (size - 1, NA) := by
    intro h
    simp [find_next_non_quoted_newline_in, he, h]
  refine ⟨?_, hpast, ?_⟩
  · intro hs
    rw [find_next_non_quoted_newline_in_eq mem size start quote (by rw [he]; exact hs), he]
    have := scan_from_ge mem (size - 1) quote _ start false rfl
    omega
  · intro h
    by_cases hs : start ≤ size - 1
    · rcases h with h | hnul
      · omega
      · rw [find_next_non_quoted_newline_in_eq mem size start quote (by rw [he]; exact hs), he]
        exact scan_from_le_to_nul mem (size - 1) quote
          (by rw [show size - 1 + 1 = size by omega]; exact hnul) _ start false rfl
    · rw [hpast (by omega)]

theorem find_next_non_quoted_newline_bounds_witness :
    0 < 4 ∧ byteAt [97, 34, 10, 98, 0, 10] 4 = 0 ∧
    (find_next_non_quoted_newline_in [97, 34, 10, 98, 0, 10] 4 1 34).1 ≤ 4 - 1 ∧
    find_next_non_quoted_newline_in [97, 34, 10, 98, 0, 10] 4 9 34 = (4 - 1, NA) :=
  ⟨by decide, by decide,
    (find_next_non_quoted_newline_bounds [97, 34, 10, 98, 0, 10] 4 1 34 (by decide)).2.2
      (Or.inr (by decide)),
    (find_next_non_quoted_newline_bounds [97, 34, 10, 98, 0, 10] 4 9 34 (by decide)).2.1
      (by decide)⟩

/-! ## The two scanners under the first-data-line locator -/

/-- The two modes of `find_first_line` also differ on buffers without quote bytes: on a
CRLF pair, on a buffer without a final terminator, and on a NUL byte. -/
theorem find_first_line_modes_differ_without_quotes :
    find_first_line [97, 13, 10, 98, 10] 1 [] false true 34 ≠
      find_first_line [97, 13, 10, 98, 10] 1 [] false false 34 ∧
    find_first_line [97, 98, 99] 1 [] false true 34 ≠
      find_first_line [97, 98, 99] 1 [] false false 34 ∧
    find_first_line [97, 0, 98, 10, 99, 10] 1 [] false true 34 ≠
      find_first_line [97, 0, 98, 10, 99, 10] 1 [] false false 34 := by
  decide

end vroom
